import Mathlib

/-!
Verification development for the Graph-Network-Analysis repository.

The repository builds an actor-collaboration graph from (actor, movie, year)
records and runs three programs over it:
 * `pathfinder` (actorgraph.hpp / pathfindermain.cpp): Dijkstra shortest path
   between two actors, movies as edges;
 * `predictorandrecommender` (predictormain.cpp): common-neighbour link
   prediction / recommendation over a dense 0/1 adjacency matrix;
 * `popularityfinder`: iterative k-core peeling over the same matrix.

The C++ sources are shallowly embedded below.  Machine integers (`int`) are
modelled as `Int` (no overflow occurs in any configuration considered here;
`INT_MAX` appears literally where the source uses it), `std::unordered_map`
as an association list (its iteration order is only used by the sources in
places where the result does not depend on the order; every order-sensitive
iteration in the sources is over a `std::vector`, which is embedded as a
`List` in insertion order), and `std::vector<std::vector<int>>` matrices as
functions `Nat → Nat → Nat` updated pointwise (the sources only ever write
within bounds, and never resize after allocation).  Fallible or potentially
non-terminating constructs (`std::stoi`, the Dijkstra worklist loop, whose
termination is not syntactically guaranteed) return `Option` / take fuel.
-/

/-- Association-list lookup; models `std::unordered_map::find` /
`count` on a map with `String` keys. -/
def alookup {β : Type} : List (String × β) → String → Option β
  | [], _ => none
  | (k', v) :: rest, k => if k' = k then some v else alookup rest k

/-- Pointwise update of the value stored at key `k` (all occurrences; the
embedded maps never hold duplicate keys).  Models `m[k] = f(m[k])` on an
existing key. -/
def amodify {β : Type} : List (String × β) → String → (β → β) → List (String × β)
  | [], _, _ => []
  | (k', v) :: rest, k, f =>
    if k' = k then (k', f v) :: amodify rest k f
    else (k', v) :: amodify rest k f

/-- Digit-list accumulator for `stoi?`. -/
def digitsAcc : List Char → Nat → Nat
  | [], acc => acc
  | c :: cs, acc => digitsAcc cs (acc * 10 + (c.toNat - 48))

/-- Models `std::stoi` (base 10): skip leading whitespace, optional sign,
then at least one decimal digit (trailing junk ignored); `none` models
the `std::invalid_argument` exception thrown when no digit is found.
(`std::out_of_range` on overflow is not modelled; the integers appearing
in the developments below are far from the `int` range limits.) -/
def stoi? (s : String) : Option Int :=
  let cs := s.data.dropWhile (fun c => c.isWhitespace)
  let signed : Int × List Char :=
    match cs with
    | '+' :: r => (1, r)
    | '-' :: r => (-1, r)
    | r => (1, r)
  let ds := signed.2.takeWhile (fun c => c.isDigit)
  if ds.isEmpty then none
  else some (signed.1 * (digitsAcc ds 0 : Int))

/-- Lexicographic comparison of character lists by codepoint; the
semantics of `operator<` on `std::string` (bytewise unsigned-char
comparison, which coincides with codepoint order on the ASCII data this
repository processes).  Defined from scratch so that closed comparisons
reduce inside the kernel. -/
def lexLt : List Char → List Char → Bool
  | [], [] => false
  | [], _ :: _ => true
  | _ :: _, [] => false
  | a :: as, b :: bs =>
    if a < b then true
    else if b < a then false
    else lexLt as bs

/-- String comparison `x < y` as `std::string::operator<` computes it. -/
def strLt (x y : String) : Bool := lexLt x.data y.data

/-- The non-strict string order `x ≤ y` induced by `strLt`;
`std::sort` on strings orders by it. -/
def sLe (x y : String) : Prop := strLt y x = false

instance : DecidableRel sLe := fun x y => by
  unfold sLe
  infer_instance

namespace ActorGraph

/-- `INT_MAX` from `<climits>`. -/
def INTMAX : Int := 2147483647

/-- Per-vertex working state for Dijkstra (class `ActorGraph::Vertex`).
The `name` is the key under which the state is stored, so it is not
duplicated inside the structure. -/
structure VState where
  dist : Int
  done : Bool
  prev_actor : String
  prev_movie : String
deriving DecidableEq

/-- The two graph maps of `ActorGraph`: `actor_map` (actor name to the
movies the actor appears in) and `movie_map` (movie key to its weight and
cast list). -/
structure Graph where
  actor_map : List (String × List String)
  movie_map : List (String × (Int × List String))
deriving DecidableEq

/-- One iteration of the record loop in `ActorGraph::loadFromFile`: append
the movie key to the actor's movie list and the actor to the movie's cast,
creating empty entries first when absent, exactly as the source does. -/
def addRecord (use_weighted_edges : Bool) (g : Graph) (actor_name title yearStr : String)
    (movie_year : Int) : Graph :=
  let movie_title := title ++ "#@" ++ yearStr
  let am0 := if (alookup g.actor_map actor_name).isSome then g.actor_map
             else g.actor_map ++ [(actor_name, [])]
  let am1 := amodify am0 actor_name (fun v => v ++ [movie_title])
  let mm0 := if (alookup g.movie_map movie_title).isSome then g.movie_map
             else g.movie_map ++
               [(movie_title, (if use_weighted_edges then 2018 - movie_year + 1 else 1, []))]
  let mm1 := amodify mm0 movie_title (fun p => (p.1, p.2 ++ [actor_name]))
  ⟨am1, mm1⟩

/-- The record loop of `ActorGraph::loadFromFile` over pre-tokenised
records (one `List String` per data line; header already discarded, raw
line splitting being outside the embedded core).  A record whose field
count is not 3 makes the function return `false` at once, keeping the maps
built so far, exactly as the `return false` in the source does.  `none`
models the uncaught `std::stoi` exception on an unparseable year. -/
def loadLoop (w : Bool) : List (List String) → Graph → Option (Bool × Graph)
  | [], g => some (true, g)
  | record :: rest, g =>
    if record.length ≠ 3 then some (false, g)
    else
      match stoi? (record.getD 2 "") with
      | none => none
      | some y =>
        loadLoop w rest (addRecord w g (record.getD 0 "") (record.getD 1 "") (record.getD 2 "") y)

/-- `ActorGraph::loadFromFile` on an already-opened, already-tokenised
input (file opening and the header line are outside the embedded core). -/
def loadFromFile (records : List (List String)) (use_weighted_edges : Bool) :
    Option (Bool × Graph) :=
  loadLoop use_weighted_edges records ⟨[], []⟩

/-- Placeholder vertex state; it is only ever produced by lookups that the
sources guarantee to succeed (every name reaching a lookup is a key of the
map in all runs considered in this development). -/
def dummyV : VState := ⟨0, false, "", ""⟩

/-- Vertex-state map (`vertices` in the source, name to `Vertex*`; the
pointed-to mutable record is stored inline). -/
abbrev VMap := List (String × VState)

/-- The comparator `ActorGraph::vertexComp`, reading the CURRENT `dist`
and `prev_actor` fields at comparison time — these fields mutate between
heap operations, which is essential to the behaviour verified below. -/
def vertexComp (σ : VMap) (x y : String) : Bool :=
  let vx := (alookup σ x).getD dummyV
  let vy := (alookup σ y).getD dummyV
  if vx.dist ≠ vy.dist then decide (vx.dist > vy.dist)
  else strLt vx.prev_actor vy.prev_actor

/-- Indexed read of the heap array (`*(first + i)`); the default is never
hit at the indices used by the heap algorithms. -/
def lget (v : List String) (i : Nat) : String := v.getD i ""

/-- `std::__push_heap` from libstdc++ `bits/stl_heap.h`: sift the hole at
`hole` up towards `top`, comparing `value` against the parents.  The first
argument is fuel, supplied by the callers as `hole + 1`; since the hole
index strictly decreases at every iteration (`(hole - 1) / 2 < hole` for
`hole > 0`), the loop runs at most `hole` times and the fuel is never
exhausted, so the zero-fuel branch is unreachable and the function
computes exactly the C++ loop (structural recursion is used so that
closed runs reduce inside the kernel). -/
def siftUp (cmp : String → String → Bool) :
    Nat → List String → Nat → Nat → String → List String
  | 0, v, hole, _, value => v.set hole value
  | fuel + 1, v, hole, top, value =>
    if top < hole then
      let parent := (hole - 1) / 2
      if cmp (lget v parent) value then
        siftUp cmp fuel (v.set hole (lget v parent)) parent top value
      else v.set hole value
    else v.set hole value

/-- The descend-to-a-leaf loop of `std::__adjust_heap`; returns the array,
the hole index and the final `secondChild` value.  Fuel is supplied as
`len + 1`: `secondChild` strictly increases while staying below
`(len - 1) / 2`, so at most `len` iterations occur and the zero-fuel
branch is unreachable. -/
def adjustLoop (cmp : String → String → Bool) :
    Nat → List String → Nat → Nat → Nat → List String × Nat × Nat
  | 0, v, hole, sc, _ => (v, hole, sc)
  | fuel + 1, v, hole, sc, len =>
    if sc < (len - 1) / 2 then
      let sc1 := 2 * (sc + 1)
      let sc2 := if cmp (lget v sc1) (lget v (sc1 - 1)) then sc1 - 1 else sc1
      adjustLoop cmp fuel (v.set hole (lget v sc2)) sc2 sc2 len
    else (v, hole, sc)

/-- `std::__adjust_heap`: descend the hole to a leaf, fix up the odd-size
boundary case, then sift the saved `value` back up. -/
def adjustHeap (cmp : String → String → Bool) (v : List String) (hole len : Nat)
    (value : String) : List String :=
  let r := adjustLoop cmp (len + 1) v hole hole len
  let v1 := r.1
  let h1 := r.2.1
  let sc := r.2.2
  let fixed : List String × Nat :=
    if len % 2 = 0 ∧ sc = (len - 2) / 2 then
      (v1.set h1 (lget v1 (2 * (sc + 1) - 1)), 2 * (sc + 1) - 1)
    else (v1, h1)
  siftUp cmp (fixed.2 + 1) fixed.1 fixed.2 hole value

/-- `priority_queue::push`: append, then `std::push_heap`. -/
def pushHeap (cmp : String → String → Bool) (v : List String) (x : String) :
    List String :=
  let w := v ++ [x]
  siftUp cmp w.length w (w.length - 1) 0 (lget w (w.length - 1))

/-- `priority_queue::top()` followed by `pop()` (`std::pop_heap` then
`pop_back`): the back element is moved into the root hole and adjusted
down over the first `n-1` slots. -/
def popHeap (cmp : String → String → Bool) (v : List String) : String × List String :=
  match v with
  | [] => ("", [])
  | [x] => (x, [])
  | _ =>
    let top := lget v 0
    let value := lget v (v.length - 1)
    let rest := v.take (v.length - 1)
    (top, adjustHeap cmp rest 0 rest.length value)

/-- Relaxation of one adjacent actor inside `findPath`'s movie loop: skip
the current actor, otherwise update distance/predecessors and push when the
distance through `working` improves.  The comparator passed to the heap
reads the state AFTER the update, as the C++ pointers do. -/
def relaxActor (working movie : String) (weight : Int) (S : VMap × List String)
    (adj_actor : String) : VMap × List String :=
  if adj_actor = working then S
  else
    let σ := S.1
    let wdist := ((alookup σ working).getD dummyV).dist
    let advx := (alookup σ adj_actor).getD dummyV
    if wdist + weight < advx.dist then
      let σ' := amodify σ adj_actor
        (fun v => { v with prev_actor := working, prev_movie := movie, dist := wdist + weight })
      (σ', pushHeap (vertexComp σ') S.2 adj_actor)
    else S

/-- One movie of the exploration loop: read the movie's weight and cast
via `movie_map[movie]` (`operator[]`, which default-inserts an empty entry
for an absent key) and relax every cast member. -/
def exploreMovie (working : String)
    (S : VMap × List String × List (String × (Int × List String))) (movie : String) :
    VMap × List String × List (String × (Int × List String)) :=
  let mm := S.2.2
  let looked : (Int × List String) × List (String × (Int × List String)) :=
    match alookup mm movie with
    | some p => (p, mm)
    | none => ((0, []), mm ++ [(movie, (0, []))])
  let weight := looked.1.1
  let res := looked.1.2.foldl (relaxActor working movie weight) (S.1, S.2.1)
  (res.1, res.2, looked.2)

/-- The Dijkstra worklist loop of `ActorGraph::findPath`.  Returns the
final vertex states, the two graph maps (threaded because `operator[]`
can insert), and the final `working` vertex.  Fuel bounds the number of
iterations; `none` models a run that exceeds it (the C++ loop has no
syntactic termination guarantee once edge weights may be negative). -/
def dloop (end_name : String) :
    Nat → VMap → List String → List (String × List String) →
    List (String × (Int × List String)) → String →
    Option (VMap × List (String × List String) × List (String × (Int × List String)) × String)
  | 0, _, _, _, _, _ => none
  | _ + 1, σ, [], am, mm, working => some (σ, am, mm, working)
  | fuel + 1, σ, h :: t, am, mm, _ =>
    let popped := popHeap (vertexComp σ) (h :: t)
    let working := popped.1
    let heap' := popped.2
    if working = end_name then some (σ, am, mm, working)
    else
      if ((alookup σ working).getD dummyV).done then
        dloop end_name fuel σ heap' am mm working
      else
        let σ1 := amodify σ working (fun v => { v with done := true })
        let lookedAM : List String × List (String × List String) :=
          match alookup am working with
          | some v => (v, am)
          | none => ([], am ++ [(working, [])])
        let res := lookedAM.1.foldl (exploreMovie working) (σ1, heap', mm)
        dloop end_name fuel res.1 res.2.1 lookedAM.2 res.2.2 working

/-- The backtracking stack build of `findPath`: follow `prev_actor` links
from the final `working` vertex, pushing name and movie; the resulting
list is the stack read top-first (start actor at the head).  Fuel guards
against predecessor cycles (possible only with non-positive weights). -/
def buildStack (σ : VMap) : Nat → String → Option (List String)
  | 0, _ => none
  | fuel + 1, w =>
    let vx := (alookup σ w).getD dummyV
    if vx.prev_actor = "" then some [w]
    else (buildStack σ fuel vx.prev_actor).map (fun l => l ++ [vx.prev_movie, w])

/-- The output loop of `findPath`: pairs `(actor, movie)` become
`"(actor)--[movie]-->"`, the last element becomes `"(actor)"`. -/
def render : List String → String
  | [] => ""
  | [x] => "(" ++ x ++ ")"
  | a :: m :: rest => "(" ++ a ++ ")--[" ++ m ++ "]-->" ++ render rest

/-- `ActorGraph::findPath`.  The vertex map holds one entry per
`actor_map` key (as built by `loadFromFile`); the initialisation loop
makes every field fresh, so the map is rebuilt here.  When the start name
is not a key, the source's `vertices[start_name]` default-inserts a null
`Vertex*` and `working->dist = 0` dereferences it: that crash is modelled
by `none`.  On success the result carries the written string, the final
vertex states and the two graph maps. -/
def findPath (g : Graph) (start_name end_name : String) (fuel : Nat) :
    Option (String × VMap × List (String × List String) × List (String × (Int × List String))) :=
  let σ0 : VMap := g.actor_map.map (fun p => (p.1, ⟨INTMAX, false, "", ""⟩))
  if (alookup σ0 start_name).isSome then
    let σ1 := amodify σ0 start_name (fun v => { v with dist := 0 })
    let heap0 := pushHeap (vertexComp σ1) [] start_name
    match dloop end_name fuel σ1 heap0 g.actor_map g.movie_map start_name with
    | none => none
    | some (σ, am, mm, working) =>
      (buildStack σ fuel working).map (fun vs => (render vs, σ, am, mm))
  else none

end ActorGraph

namespace Proj

/-- A pre-tokenised data record `(actorName, movieTitle, movieYear)` as
consumed by the `BuildStructures` routines of predictormain.cpp and the
popularityfinder source (which index `record[0..2]` without any field
count check, so only 3-field records reach this code). -/
abbrev Rec := String × String × String

/-- The reading state of `BuildStructures`: the identifier registry
(`name_to_int`, `int_to_name`) and the temporary `movie_to_actor` map. -/
structure BuildSt where
  name_to_int : List (String × Nat)
  int_to_name : List String
  movie_to_actor : List (String × List String)
deriving DecidableEq

/-- One record of the read loop in `BuildStructures` (identical in
predictormain.cpp and the popularityfinder source): the movie key is
`record[1].append(record[2])`, i.e. title and year concatenated with no
separator; the actor is registered on first sight with id
`int_to_name.size()`; the actor is appended to the movie's cast. -/
def buildStep (st : BuildSt) (r : Rec) : BuildSt :=
  let actor_name := r.1
  let movie_title := r.2.1 ++ r.2.2
  let reg : List (String × Nat) × List String :=
    if (alookup st.name_to_int actor_name).isSome then (st.name_to_int, st.int_to_name)
    else (st.name_to_int ++ [(actor_name, st.int_to_name.length)],
          st.int_to_name ++ [actor_name])
  let m2a :=
    if (alookup st.movie_to_actor movie_title).isSome then
      amodify st.movie_to_actor movie_title (fun l => l ++ [actor_name])
    else st.movie_to_actor ++ [(movie_title, [actor_name])]
  ⟨reg.1, reg.2, m2a⟩

/-- The full read loop of `BuildStructures` over the data records. -/
def build (records : List Rec) : BuildSt :=
  records.foldl buildStep ⟨[], [], []⟩

/-- Registry lookup as performed by `name_to_int[name]`
(`unordered_map::operator[]`): an absent key is default-inserted with
value-initialised mapped value `0`, so an unknown name reads as id 0. -/
def lookupId (n2i : List (String × Nat)) (a : String) : Nat :=
  (alookup n2i a).getD 0

/-- The pair of matrix assignments
`graph[i][j] = 1; graph[j][i] = 1;` in `BuildStructures`. -/
def setEdge (g : Nat → Nat → Nat) (x y : Nat) : Nat → Nat → Nat :=
  fun a b => if (a = x ∧ b = y) ∨ (a = y ∧ b = x) then 1 else g a b

/-- The inner `j = i+1 .. size-1` loop paired with the outer `i` loop of
the adjacency materialisation: connect the head of the cast to every
later member, then recurse. -/
def addPairs (n2i : List (String × Nat)) (g : Nat → Nat → Nat) :
    List String → Nat → Nat → Nat
  | [] => g
  | a :: rest =>
    addPairs n2i (rest.foldl (fun h b => setEdge h (lookupId n2i a) (lookupId n2i b)) g) rest

/-- The adjacency-matrix materialisation loop of `BuildStructures`: start
from the all-zero `n × n` matrix and process every movie's cast.  (The
iteration order over the `unordered_map` cannot affect the result: all
assignments write the constant 1.) -/
def buildGraph (st : BuildSt) : Nat → Nat → Nat :=
  st.movie_to_actor.foldl (fun g p => addPairs st.name_to_int g p.2) (fun _ _ => 0)

end Proj

namespace Popularity

/-- The initial `counts` vector of the popularityfinder source:
`counts[i]` is the row sum `Σ_j graph[i][j]` over `j < n`. -/
def rowSum (g : Nat → Nat → Nat) (n : Nat) (i : Nat) : Int :=
  (List.range n).foldl (fun s j => s + (g i j : Int)) 0

/-- One full index sweep `for (i = 0; i < counts.size(); i++)` of the
k-core pruning loop: a vertex with `counts[i] < k` that is not already
deleted (`counts[i] > -(int)counts.size()`) decrements every neighbour's
count and is marked deleted by `counts[i] = -(int)counts.size()`; the
`not_done` flag records whether the sweep deleted anything. -/
def prunePass (g : Nat → Nat → Nat) (n : Nat) (k : Int) :
    List Nat → (Nat → Int) → Bool → ((Nat → Int) × Bool)
  | [], c, flag => (c, flag)
  | i :: rest, c, flag =>
    if c i < k ∧ -(n : Int) < c i then
      prunePass g n k rest
        (fun j => if j = i then -(n : Int) else if g i j ≠ 0 then c j - 1 else c j) true
    else prunePass g n k rest c flag

/-- Number of not-yet-deleted vertices; the termination measure of the
pruning loop. -/
def activeCount (n : Nat) (c : Nat → Int) : Nat :=
  (List.range n).countP (fun i => decide (-(n : Int) < c i))

/-- The outer `while (not_done)` loop of the popularityfinder `main`,
fuel-counted: repeat full sweeps until one deletes nothing, or until the
fuel runs out (in which case the current counts are returned; the theorems
below show that `n + 1` units of fuel always reach the fixpoint, which is
the termination argument for the C++ loop). -/
def pruneLoopAux (g : Nat → Nat → Nat) (n : Nat) (k : Int) :
    Nat → (Nat → Int) → (Nat → Int)
  | 0, c => c
  | fuel + 1, c =>
    let r := prunePass g n k (List.range n) c false
    if r.2 = true then pruneLoopAux g n k fuel r.1 else r.1

/-- The pruning loop entered with `n + 1` units of fuel (always enough,
as proved below). -/
def pruneLoop (g : Nat → Nat → Nat) (n : Nat) (k : Int) (c : Nat → Int) : Nat → Int :=
  pruneLoopAux g n k (n + 1) c

/-- The survivor collection loop: indices with final count at least `k`,
mapped to their names in index order. -/
def survivorsNames (st : Proj.BuildSt) (k : Int) : List String :=
  let n := st.int_to_name.length
  let cF := pruneLoop (Proj.buildGraph st) n k (rowSum (Proj.buildGraph st) n)
  ((List.range n).filter (fun i => k ≤ cF i)).map (fun i => st.int_to_name.getD i "")

/-- The complete popularityfinder output: header `Actor`, then the
surviving names sorted by `std::sort` (embedded as `insertionSort`, which
produces the same list: a comparison sort with a total antisymmetric
order has a unique sorted output). -/
def popOutput (records : List Proj.Rec) (k : Int) : String :=
  "Actor\n" ++
    String.join (((Proj.build records |> survivorsNames) k
      |> List.insertionSort sLe).map (fun s => s ++ "\n"))

end Popularity

namespace Predictor

/-- The helper `compare` of predictormain.cpp: a strict order on
`(frequency, name)` pairs, decreasing in the count and increasing in the
name on ties. -/
def cmpPair (x y : Nat × String) : Bool :=
  if x.1 = y.1 then strLt x.2 y.2 else decide (x.1 > y.1)

/-- The non-strict order induced by `cmpPair`; `std::sort(v, compare)`
produces the unique permutation of `v` that is sorted under it (`cmpPair`
never holds in both directions, and `cmpLe` is total and antisymmetric on
the pairs occurring here, which have pairwise distinct names), so the
sort is embedded as `insertionSort cmpLe` below. -/
def cmpLe (x y : Nat × String) : Prop := cmpPair y x = false

instance : DecidableRel cmpLe := fun x y => by
  unfold cmpLe
  infer_instance

/-- The dot product `Σ_i graph[dot_ind][i] & row[i]` with `row =
graph[u]`, computing the number of mutual neighbours (`&` is bitwise and;
all entries are 0 or 1). -/
def mutualRow (g : Nat → Nat → Nat) (n u dot_ind : Nat) : Nat :=
  (List.range n).foldl (fun s i => s + Nat.land (g dot_ind i) (g u i)) 0

/-- The `mutual_count` vector after the zeroing of the query actor's own
entry (`mutual_count[name_to_int[actor]] = 0`). -/
def mutualCount (g : Nat → Nat → Nat) (n u : Nat) (i : Nat) : Nat :=
  if i = u then 0 else mutualRow g n u i

/-- The candidate-collection loop: indices with `row[i] == neighbor`
(the `bool` promotes to `int` 1 or 0), paired with their mutual count and
name, in index order. -/
def predictsFor (g : Nat → Nat → Nat) (n : Nat) (i2n : List String) (u : Nat)
    (neighbor : Bool) : List (Nat × String) :=
  ((List.range n).filter (fun i => g u i = (if neighbor then 1 else 0))).map
    (fun i => (mutualCount g n u i, i2n.getD i ""))

/-- The output loop over the sorted predictions: stop at the first zero
count or after `predict_max = 4` entries. -/
def emitPairs : List (Nat × String) → Nat → List (Nat × String)
  | [], _ => []
  | p :: rest, i => if p.1 = 0 ∨ 4 ≤ i then [] else p :: emitPairs rest (i + 1)

/-- The text written for one emitted prediction list: each name is
followed by a tab unless its index equals `predict_max - 1 = 3`. -/
def emitLine : List (Nat × String) → Nat → String
  | [], _ => ""
  | p :: rest, i => p.2 ++ (if i ≠ 3 then "\t" else "") ++ emitLine rest (i + 1)

/-- The names emitted for one query actor id `u` in mode `neighbor`
(`true` = predicted future interaction over existing neighbours, `false`
= recommended new collaboration over non-neighbours). -/
def emittedNames (st : Proj.BuildSt) (u : Nat) (neighbor : Bool) : List String :=
  let n := st.int_to_name.length
  let g := Proj.buildGraph st
  (emitPairs (List.insertionSort cmpLe (predictsFor g n st.int_to_name u neighbor)) 0).map
    (fun p => p.2)

/-- The full line written for one target name (excluding the final
newline, written separately by the source): the target is looked up with
`name_to_int[actor]`, so an unregistered name silently reads as id 0. -/
def lineForTarget (st : Proj.BuildSt) (actor : String) (neighbor : Bool) : String :=
  let n := st.int_to_name.length
  let g := Proj.buildGraph st
  let u := Proj.lookupId st.name_to_int actor
  emitLine (emitPairs (List.insertionSort cmpLe (predictsFor g n st.int_to_name u neighbor)) 0) 0

end Predictor

namespace Spec

/-- Weight of an alternating movie/actor chain continuing from actor `a`:
`[m, b, m', c, ...]` is valid when each movie exists in the movie map and
joins the two adjacent (distinct) actors through its cast.  This is the
specification-side notion of an actor/movie path; it is independent of the
Dijkstra implementation. -/
def chainWeight (g : ActorGraph.Graph) : String → List String → Option Int
  | _, [] => some 0
  | a, m :: b :: rest =>
    (match alookup g.movie_map m with
     | some p =>
       if a ∈ p.2 ∧ b ∈ p.2 ∧ a ≠ b then (chainWeight g b rest).map (fun w => p.1 + w)
       else none
     | none => none)
  | _, [_] => none

/-- Total weight of an alternating actor/movie path `[a, m, b, m', c, ...]`;
`none` when the path is not a valid chain in the graph. -/
def pathWeight (g : ActorGraph.Graph) : List String → Option Int
  | [] => none
  | a :: rest => chainWeight g a rest

/-- A set `T` of vertex ids is `k`-admissible when every member has at
least `k` neighbours among the OTHER members — the defining property of a
subgraph witnessing the k-core.  The k-core itself is the unique maximal
admissible set. -/
def Admissible (g : Nat → Nat → Nat) (n : Nat) (k : Int) (T : Finset ℕ) : Prop :=
  (∀ i ∈ T, i < n) ∧ ∀ i ∈ T, k ≤ (((T.erase i).filter (fun j => g i j = 1)).card : Int)

/-- Specification-side mutual-neighbour count: the number of vertices
adjacent to both `u` and `v` in the 0/1 matrix `g`. -/
def mutualSpec (g : Nat → Nat → Nat) (n u v : Nat) : Nat :=
  ((Finset.range n).filter (fun j => g u j = 1 ∧ g v j = 1)).card

/-- The ranking order of the link scorer as the specification states it:
strictly larger mutual count first; on equal counts, lexicographically
smaller name first. -/
def rankLe (x y : Nat × String) : Prop :=
  y.1 < x.1 ∨ (x.1 = y.1 ∧ sLe x.2 y.2)

instance : DecidableRel rankLe := fun x y => by
  unfold rankLe
  infer_instance

/-- The qualifying candidates of a query `u` in mode `neighbor`, as the
specification describes them: vertices of the requested adjacency mode,
other than `u` itself, with a positive mutual count; each paired with its
mutual count and name. -/
def qualified (g : Nat → Nat → Nat) (n : Nat) (i2n : List String) (u : Nat)
    (neighbor : Bool) : List (Nat × String) :=
  ((List.range n).filter
      (fun v => v ≠ u ∧ g u v = (if neighbor then 1 else 0) ∧ 0 < mutualSpec g n u v)).map
    (fun v => (mutualSpec g n u v, i2n.getD v ""))

instance (g : Nat → Nat → Nat) (n : Nat) (k : Int) (T : Finset ℕ) :
    Decidable (Admissible g n k T) := by
  unfold Admissible
  infer_instance

/-- The specification-side ranked candidate list: the qualifying
candidates sorted by `rankLe`. -/
def ranked (g : Nat → Nat → Nat) (n : Nat) (i2n : List String) (u : Nat)
    (neighbor : Bool) : List (Nat × String) :=
  List.insertionSort rankLe (qualified g n i2n u neighbor)

/-- Proof-side notion for the peeling analysis: the number of vertices
`j < n` adjacent to `i` that are still active (count above the deletion
sentinel `-n`) in the counts vector `c`. -/
def liveDeg (g : Nat → Nat → Nat) (n : Nat) (c : Nat → Int) (i : Nat) : Int :=
  (((Finset.range n).filter (fun j => g i j = 1 ∧ -(n : Int) < c j)).card : Int)

/-- The invariant maintained by every step of the peeling loop: active
vertices carry exactly their live degree, every admissible set consists of
active vertices (so deletions never touch the k-core), and deleted
vertices sit strictly below the threshold forever. -/
def PruneInv (g : Nat → Nat → Nat) (n : Nat) (k : Int) (c : Nat → Int) : Prop :=
  (∀ i, i < n → -(n : Int) < c i → c i = liveDeg g n c i) ∧
  (∀ T, Admissible g n k T → ∀ i ∈ T, -(n : Int) < c i) ∧
  (∀ i, i < n → ¬(-(n : Int) < c i) → c i < k)

end Spec

/-- Dataset (pre-tokenised) exhibiting the heap-order anomaly of
`findPath`: movie MB (weight 14) with cast `[D, B, C, E]`, movie MS
(weight 6) joining C and B, movie MT (weight 3) joining C and D. -/
def c1records : List (List String) :=
  [["D", "MB", "2005"], ["B", "MB", "2005"], ["C", "MB", "2005"], ["E", "MB", "2005"],
   ["C", "MS", "2013"], ["B", "MS", "2013"], ["C", "MT", "2016"], ["D", "MT", "2016"]]

/-- The graph `loadFromFile` builds from `c1records` in weighted mode. -/
def c1graph : ActorGraph.Graph :=
  ⟨[("D", ["MB#@2005", "MT#@2016"]), ("B", ["MB#@2005", "MS#@2013"]),
    ("C", ["MB#@2005", "MS#@2013", "MT#@2016"]), ("E", ["MB#@2005"])],
   [("MB#@2005", (14, ["D", "B", "C", "E"])), ("MS#@2013", (6, ["C", "B"])),
    ("MT#@2016", (3, ["C", "D"]))]⟩

/-- Dataset with two connected components: A-B share movie M, C-D share
movie N; C is unreachable from A. -/
def c3records : List (List String) :=
  [["A", "M", "2000"], ["B", "M", "2000"], ["C", "N", "2000"], ["D", "N", "2000"]]

/-- The graph `loadFromFile` builds from `c3records` in unweighted mode. -/
def c3graph : ActorGraph.Graph :=
  ⟨[("A", ["M#@2000"]), ("B", ["M#@2000"]), ("C", ["N#@2000"]), ("D", ["N#@2000"])],
   [("M#@2000", (1, ["A", "B"])), ("N#@2000", (1, ["C", "D"]))]⟩

/-- A dataset whose second record has only two fields. -/
def c4records : List (List String) :=
  [["A", "M", "2000"], ["B", "N"]]

/-- A movie whose cast repeats an actor: the same record listed twice. -/
def c2dupRecords : List Proj.Rec :=
  [("X", "M", "2000"), ("X", "M", "2000")]

/-- Two records with different (title, year) pairs whose concatenated
movie keys coincide: `"X1" ++ "999" = "X19" ++ "99"`. -/
def c8records : List Proj.Rec :=
  [("A", "X1", "999"), ("B", "X19", "99")]

/-- The running example dataset of the specification: A, B, C share movie
M1 (2000); A and D share movie M2 (2010). -/
def exRecords : List Proj.Rec :=
  [("A", "M1", "2000"), ("B", "M1", "2000"), ("C", "M1", "2000"),
   ("A", "M2", "2010"), ("D", "M2", "2010")]

/-- The pathfinder form of the same example dataset. -/
def exRecordsTok : List (List String) :=
  [["A", "M1", "2000"], ["B", "M1", "2000"], ["C", "M1", "2000"],
   ["A", "M2", "2010"], ["D", "M2", "2010"]]

/-- Names joined with a tab AFTER every element (trailing tab present). -/
def tabJoin : List String → String
  | [] => ""
  | s :: rest => s ++ "\t" ++ tabJoin rest

/-- Names separated by single tabs with no trailing tab. -/
def tabSep : List String → String
  | [] => ""
  | [s] => s
  | s :: rest => s ++ "\t" ++ tabSep rest

/-!
Theorems.  First some general facts about the auxiliary orders and maps,
then the claim theorems C1 – C10 with their witnesses and counterexamples.
-/

theorem lexLt_asymm : ∀ {a b : List Char}, lexLt a b = true → lexLt b a = false := by
  intro a
  induction a with
  | nil =>
    intro b h
    cases b with
    | nil => simp [lexLt] at h
    | cons y ys => simp [lexLt]
  | cons x xs ih =>
    intro b h
    cases b with
    | nil => simp [lexLt] at h
    | cons y ys =>
      simp only [lexLt] at h ⊢
      rcases lt_trichotomy x y with hxy | hxy | hxy
      · simp [hxy, not_lt_of_lt hxy, lt_asymm hxy]
      · subst hxy
        simp only [lt_irrefl, if_false] at h ⊢
        exact ih h
      · simp [hxy, not_lt_of_lt hxy, lt_asymm hxy] at h

theorem lexLt_eq_of_not : ∀ {a b : List Char}, lexLt a b = false → lexLt b a = false → a = b := by
  intro a
  induction a with
  | nil =>
    intro b h1 _
    cases b with
    | nil => rfl
    | cons y ys => simp [lexLt] at h1
  | cons x xs ih =>
    intro b h1 h2
    cases b with
    | nil => simp [lexLt] at h2
    | cons y ys =>
      simp only [lexLt] at h1 h2
      rcases lt_trichotomy x y with hxy | hxy | hxy
      · simp [hxy] at h1
      · subst hxy
        simp only [lt_irrefl, if_false] at h1 h2
        rw [ih h1 h2]
      · simp [hxy] at h2

theorem lexLt_not_trans :
    ∀ {a b c : List Char}, lexLt b a = false → lexLt c b = false → lexLt c a = false := by
  intro a
  induction a with
  | nil =>
    intro b c h1 h2
    cases c with
    | nil => rfl
    | cons z zs =>
      cases b with
      | nil => simpa [lexLt] using h2
      | cons y ys => simpa [lexLt] using h1
  | cons x xs ih =>
    intro b c h1 h2
    cases c with
    | nil =>
      cases b with
      | nil => simp [lexLt] at h1
      | cons y ys => simp [lexLt] at h2
    | cons z zs =>
      cases b with
      | nil => simp [lexLt] at h1
      | cons y ys =>
        simp only [lexLt] at h1 h2 ⊢
        rcases lt_trichotomy y x with hyx | hyx | hyx
        · simp [hyx] at h1
        · subst hyx
          simp only [lt_irrefl, if_false] at h1
          rcases lt_trichotomy z y with hzy | hzy | hzy
          · simp [hzy] at h2
          · subst hzy
            simp only [lt_irrefl, if_false] at h2 ⊢
            exact ih h1 h2
          · simp [hzy, not_lt_of_lt hzy, lt_asymm hzy]
        · rcases lt_trichotomy z y with hzy | hzy | hzy
          · simp [hzy] at h2
          · subst hzy
            simp [hyx, not_lt_of_lt hyx, lt_asymm hyx]
          · have hzx : x < z := lt_trans hyx hzy
            simp [hzx, not_lt_of_lt hzx, lt_asymm hzx]

theorem sLe_total (x y : String) : sLe x y ∨ sLe y x := by
  unfold sLe strLt
  rcases h : lexLt y.data x.data with hf | ht
  · exact Or.inl rfl
  · exact Or.inr (lexLt_asymm h)

theorem sLe_antisymm {x y : String} (h1 : sLe x y) (h2 : sLe y x) : x = y := by
  unfold sLe strLt at h1 h2
  have hd : x.data = y.data := lexLt_eq_of_not h2 h1
  cases x
  cases y
  exact congrArg String.mk hd

theorem sLe_trans {x y z : String} (h1 : sLe x y) (h2 : sLe y z) : sLe x z := by
  unfold sLe strLt at h1 h2 ⊢
  exact lexLt_not_trans h1 h2

/-- C1: the claim states that the path written by `findPath` always has
total edge weight equal to the minimal achievable sum.  The code violates
it: on `c1records` (weighted mode) the query B → D writes the single-hop
path through MB of weight 14, while the valid path B –MS– C –MT– D has
weight 9.  The cause is the priority-queue comparator reading the mutable
`dist` field: when C is re-relaxed from 14 to 6 and pushed again, the
sift-up compares the new entry against C's own stale copy (equal, since
both read the current fields), stops immediately, and leaves D at the heap
root; the loop then pops the destination D and breaks with the non-final
distance 14. -/
theorem C1_shortest_path_not_minimal :
    ActorGraph.loadFromFile c1records true = some (true, c1graph) ∧
    (ActorGraph.findPath c1graph "B" "D" 50).map (fun r => r.1) =
      some "(B)--[MB#@2005]-->(D)" ∧
    Spec.pathWeight c1graph ["B", "MB#@2005", "D"] = some 14 ∧
    Spec.pathWeight c1graph ["B", "MS#@2013", "C", "MT#@2016", "D"] = some 9 :=
  ⟨by decide, by decide, by decide, by decide⟩

/-- C3: the claim states that a query with an unreachable destination
writes a line containing only the start actor.  The code violates it: on
`c3records`, querying A → C (C unreachable, its distance still `INT_MAX`
when the frontier empties) backtracks from the LAST POPPED vertex, so the
written line is the chain `(A)--[M#@2000]-->(B)`, not the single node
`(A)`. -/
theorem C3_unreachable_writes_chain :
    ActorGraph.loadFromFile c3records false = some (true, c3graph) ∧
    (ActorGraph.findPath c3graph "A" "C" 50).map
        (fun r => (r.1, (alookup r.2.1 "C").map (fun v => v.dist))) =
      some ("(A)--[M#@2000]-->(B)", some ActorGraph.INTMAX) ∧
    "(A)--[M#@2000]-->(B)" ≠ "(A)" :=
  ⟨by decide, by decide, by decide⟩

/-- C5: the claim states that a query naming an actor absent from the
registry signals `UnknownActorError`.  No such check exists anywhere in
the code: in `findPath` the lookup `vertices[start_name]` default-inserts
a null `Vertex*` which is immediately dereferenced (modelled by `none`,
an uncontrolled crash rather than a signalled error), and in
`FindInteractions` the lookup `name_to_int[actor]` default-inserts id 0,
so an unknown target is silently scored as the actor with id 0 and a
normal output line is produced. -/
theorem C5_unknown_actor_not_rejected :
    alookup c3graph.actor_map "Z" = none ∧
    (ActorGraph.findPath c3graph "Z" "A" 50).isSome = false ∧
    alookup (Proj.build exRecords).name_to_int "Z" = none ∧
    Predictor.lineForTarget (Proj.build exRecords) "Z" true =
      Predictor.lineForTarget (Proj.build exRecords) "A" true ∧
    Predictor.lineForTarget (Proj.build exRecords) "Z" true = "B\tC\t" :=
  ⟨by decide, by decide, by decide, by decide, by decide⟩

/-- C2, counterexample: on a dataset whose movie cast repeats an actor
(the same record twice) with k = 1, the surviving set is {X} (the
self-loop `graph[0][0] = 1` makes `counts[0] = 1 ≥ 1`), but X has no
neighbour among OTHER survivors, so {0} is not 1-admissible — the
surviving set is not the k-core the claim describes. -/
theorem C2_counterexample :
    Popularity.survivorsNames (Proj.build c2dupRecords) 1 = ["X"] ∧
    Popularity.popOutput c2dupRecords 1 = "Actor\nX\n" ∧
    ¬ Spec.Admissible (Proj.buildGraph (Proj.build c2dupRecords)) 1 1 {0} :=
  ⟨by decide, by decide, by decide⟩

/-- C4, counterexample: a well-formed record followed by a 2-field record
makes `loadFromFile` return `false`, but the maps retain the entries built
from the first record — the build is not all-or-nothing at the level of
the graph object (the caller only sees the `false` and exits). -/
theorem C4_counterexample :
    ActorGraph.loadFromFile c4records false =
      some (false, ⟨[("A", ["M#@2000"])], [("M#@2000", (1, ["A"]))]⟩) ∧
    ([("A", ["M#@2000"])] : List (String × List String)) ≠ [] :=
  ⟨by decide, by decide⟩

/-- C6, counterexample: with a duplicated cast entry (the same
(actor, movie, year) record twice), the pairwise loop connects X to
itself: the diagonal entry `graph[0][0]` is 1, not 0. -/
theorem C6_counterexample :
    Proj.buildGraph (Proj.build c2dupRecords) 0 0 = 1 :=
  by decide

/-- C8, counterexample: the records `("A","X1","999")` and
`("B","X19","99")` have different (title, year) pairs, yet their
predictor/popularityfinder movie keys `"X1" ++ "999"` and `"X19" ++ "99"`
coincide, so their casts are merged into one movie and a spurious edge
A – B is created. -/
theorem C8_counterexample :
    (Proj.build c8records).movie_to_actor = [("X1999", ["A", "B"])] ∧
    (("X1", "999") : String × String) ≠ ("X19", "99") ∧
    Proj.buildGraph (Proj.build c8records) 0 1 = 1 :=
  ⟨by decide, by decide, by decide⟩

/-- C9, counterexample: for target A on the example dataset exactly two
candidates qualify, and the written line is `"B\tC\t"` — the tab after
the LAST emitted name is not omitted (it is omitted only at index
`predict_max - 1 = 3`), contradicting the claimed trailing-tab rule. -/
theorem C9_counterexample :
    Predictor.emittedNames (Proj.build exRecords) 0 true = ["B", "C"] ∧
    Predictor.lineForTarget (Proj.build exRecords) "A" true = "B\tC\t" ∧
    "B\tC\t" ≠ String.intercalate "\t" ["B", "C"] :=
  ⟨by decide, by decide, by decide⟩

theorem alookup_map {β γ : Type} (f : β → γ) :
    ∀ (m : List (String × β)) (k : String),
      alookup (m.map (fun p => (p.1, f p.2))) k = (alookup m k).map f := by
  intro m
  induction m with
  | nil => intro k; rfl
  | cons p rest ih =>
    intro k
    simp only [List.map_cons, alookup]
    split <;> simp [*]

theorem alookup_amodify {β : Type} (k : String) (f : β → β) :
    ∀ (m : List (String × β)), alookup (amodify m k f) k = (alookup m k).map f := by
  intro m
  induction m with
  | nil => rfl
  | cons p rest ih =>
    obtain ⟨a, b⟩ := p
    by_cases hp : a = k
    · subst hp
      simp [amodify, alookup]
    · simp only [amodify, if_neg hp, alookup, ih]

theorem alookup_amodify_ne {β : Type} (k k' : String) (f : β → β) (hne : k ≠ k') :
    ∀ (m : List (String × β)), alookup (amodify m k f) k' = alookup m k' := by
  intro m
  induction m with
  | nil => rfl
  | cons p rest ih =>
    obtain ⟨a, b⟩ := p
    by_cases hp : a = k
    · subst hp
      simp only [amodify, if_pos rfl, alookup]
      rw [if_neg hne, if_neg hne]
      exact ih
    · simp only [amodify, if_neg hp, alookup]
      by_cases hp' : a = k'
      · rw [if_pos hp', if_pos hp']
      · rw [if_neg hp', if_neg hp']
        exact ih

/-- C10: a query pair with equal start and end names (present in the
registry) makes `findPath` break on the very first pop — before any
vertex is settled or any edge relaxed — and write exactly the single node
`(name)`.  The returned structures exhibit this: both graph maps are
returned unchanged, and the vertex states are exactly the per-query
initialisation (every `done` flag still `false`, every predecessor empty)
with only the start distance set to 0.  Any fuel of at least one
iteration yields this same result, which is the termination statement. -/
theorem C10_self_query (records : List (List String)) (w : Bool) (g : ActorGraph.Graph)
    (s : String) (fuel : Nat)
    (hload : ActorGraph.loadFromFile records w = some (true, g))
    (hs : (alookup g.actor_map s).isSome = true) (hfuel : 1 ≤ fuel) :
    ActorGraph.findPath g s s fuel =
      some ("(" ++ s ++ ")",
        amodify (g.actor_map.map (fun p => (p.1, ⟨ActorGraph.INTMAX, false, "", ""⟩)))
          s (fun v => { v with dist := 0 }),
        g.actor_map, g.movie_map) := by
  clear hload
  obtain ⟨f, rfl⟩ : ∃ f, fuel = f + 1 := ⟨fuel - 1, by omega⟩
  obtain ⟨v0, hv0⟩ := Option.isSome_iff_exists.mp hs
  have h0 : alookup (g.actor_map.map
      (fun p => (p.1, (⟨ActorGraph.INTMAX, false, "", ""⟩ : ActorGraph.VState)))) s =
      some ⟨ActorGraph.INTMAX, false, "", ""⟩ := by
    rw [alookup_map (fun _ => (⟨ActorGraph.INTMAX, false, "", ""⟩ : ActorGraph.VState)), hv0]
    rfl
  have h1 : alookup (amodify (g.actor_map.map
      (fun p => (p.1, (⟨ActorGraph.INTMAX, false, "", ""⟩ : ActorGraph.VState))))
        s (fun v => { v with dist := 0 })) s =
      some ⟨0, false, "", ""⟩ := by
    rw [alookup_amodify, h0]
    rfl
  simp only [ActorGraph.findPath, h0, Option.isSome_some, eq_self_iff_true, if_true]
  have hpush : ∀ cmp : String → String → Bool, ActorGraph.pushHeap cmp [] s = [s] :=
    fun cmp => rfl
  rw [hpush]
  simp only [ActorGraph.dloop, ActorGraph.popHeap, if_true]
  simp only [ActorGraph.buildStack, h1, Option.getD_some, if_true]
  rfl

/-- Witness for C10 at a concrete input: dataset `c3records`, query
(A, A), one single unit of fuel. -/
theorem C10_self_query_witness :
    ActorGraph.findPath c3graph "A" "A" 1 =
      some ("(" ++ "A" ++ ")",
        amodify (c3graph.actor_map.map (fun p => (p.1, ⟨ActorGraph.INTMAX, false, "", ""⟩)))
          "A" (fun v => { v with dist := 0 }),
        c3graph.actor_map, c3graph.movie_map) :=
  C10_self_query c3records false c3graph "A" 1 (by decide) (by decide) (by decide)

theorem loadLoop_good_then_bad (w : Bool) (bad : List String) (rest : List (List String))
    (hbad : bad.length ≠ 3) :
    ∀ (good : List (List String)) (g : ActorGraph.Graph),
      (∀ r ∈ good, r.length = 3 ∧ (stoi? (r.getD 2 "")).isSome = true) →
      ∃ g', ActorGraph.loadLoop w good g = some (true, g') ∧
        ActorGraph.loadLoop w (good ++ bad :: rest) g = some (false, g') := by
  intro good
  induction good with
  | nil =>
    intro g _
    refine ⟨g, rfl, ?_⟩
    simp only [List.nil_append, ActorGraph.loadLoop, if_pos hbad]
  | cons r good' ih =>
    intro g hgood
    obtain ⟨hlen, hy⟩ := hgood r (List.mem_cons_self _ _)
    obtain ⟨y, hy'⟩ := Option.isSome_iff_exists.mp hy
    have hnot : ¬ r.length ≠ 3 := by omega
    obtain ⟨g', h1, h2⟩ := ih (ActorGraph.addRecord w g (r.getD 0 "") (r.getD 1 "") (r.getD 2 "") y)
      (fun x hx => hgood x (List.mem_cons_of_mem _ hx))
    refine ⟨g', ?_, ?_⟩
    · simp only [ActorGraph.loadLoop, if_neg hnot, hy']
      exact h1
    · simp only [List.cons_append, ActorGraph.loadLoop, if_neg hnot, hy']
      exact h2

/-- C4 (amended): a record with field count ≠ 3 makes `loadFromFile`
return `false`, aborting the read loop at that record — but the graph maps
retain exactly the state built from the well-formed prefix (the build is
aborted, not rolled back; the caller exits on `false`, so the
partially-built object is never used).  The predictor/popularityfinder
builders, by contrast, index malformed records without any check. -/
theorem C4_amended (w : Bool) (good : List (List String)) (bad : List String)
    (rest : List (List String))
    (hgood : ∀ r ∈ good, r.length = 3 ∧ (stoi? (r.getD 2 "")).isSome = true)
    (hbad : bad.length ≠ 3) :
    ∃ gPre, ActorGraph.loadFromFile good w = some (true, gPre) ∧
      ActorGraph.loadFromFile (good ++ bad :: rest) w = some (false, gPre) := by
  obtain ⟨g', h1, h2⟩ := loadLoop_good_then_bad w bad rest hbad good ⟨[], []⟩ hgood
  exact ⟨g', h1, h2⟩

/-- Witness for C4 (amended) at the concrete input `c4records`:
one good record, then a 2-field record. -/
theorem C4_amended_witness :
    ∃ gPre, ActorGraph.loadFromFile [["A", "M", "2000"]] false = some (true, gPre) ∧
      ActorGraph.loadFromFile ([["A", "M", "2000"]] ++ ["B", "N"] :: []) false =
        some (false, gPre) :=
  C4_amended false [["A", "M", "2000"]] ["B", "N"] [] (by decide) (by decide)

theorem alookup_append_of_isSome {β : Type} {m : List (String × β)} {k : String}
    (h : (alookup m k).isSome = true) (l : List (String × β)) :
    alookup (m ++ l) k = alookup m k := by
  induction m with
  | nil => simp [alookup] at h
  | cons p rest ih =>
    obtain ⟨a, b⟩ := p
    by_cases hp : a = k
    · simp [alookup, hp]
    · simp only [alookup, if_neg hp] at h ⊢
      exact ih h

theorem alookup_append_of_none {β : Type} {m : List (String × β)} {k : String}
    (h : alookup m k = none) (l : List (String × β)) :
    alookup (m ++ l) k = alookup l k := by
  induction m with
  | nil => rfl
  | cons p rest ih =>
    obtain ⟨a, b⟩ := p
    by_cases hp : a = k
    · simp [alookup, hp] at h
    · simp only [alookup, if_neg hp] at h ⊢
      exact ih h

theorem getD_append_length {α : Type} (l : List α) (x : α) (d : α) :
    (l ++ [x]).getD l.length d = x := by
  induction l with
  | nil => rfl
  | cons y ys ih => simpa using ih

theorem mem_amodify {β : Type} {m : List (String × β)} {k : String} {f : β → β} :
    ∀ p ∈ amodify m k f, ∃ q ∈ m, p = (q.1, f q.2) ∨ p = q := by
  induction m with
  | nil => intro p hp; cases hp
  | cons q rest ih =>
    obtain ⟨a, b⟩ := q
    intro p hp
    by_cases ha : a = k
    · simp only [amodify, if_pos ha] at hp
      rcases List.mem_cons.mp hp with h | h
      · exact ⟨(a, b), List.mem_cons_self _ _, Or.inl h⟩
      · obtain ⟨q', hq', hor⟩ := ih p h
        exact ⟨q', List.mem_cons_of_mem _ hq', hor⟩
    · simp only [amodify, if_neg ha] at hp
      rcases List.mem_cons.mp hp with h | h
      · exact ⟨(a, b), List.mem_cons_self _ _, Or.inr h⟩
      · obtain ⟨q', hq', hor⟩ := ih p h
        exact ⟨q', List.mem_cons_of_mem _ hq', hor⟩

/-- Soundness of the identifier registry built by `BuildStructures`:
looked-up ids point back to the name, ids are in range, every position of
`int_to_name` looks up to itself (so names are not duplicated), and every
cast member of `movie_to_actor` is registered. -/
theorem build_inv :
    ∀ (records : List Proj.Rec) (st : Proj.BuildSt),
      (∀ nm i, alookup st.name_to_int nm = some i →
        st.int_to_name.getD i "" = nm ∧ i < st.int_to_name.length) →
      (∀ i, i < st.int_to_name.length →
        alookup st.name_to_int (st.int_to_name.getD i "") = some i) →
      (∀ p ∈ st.movie_to_actor, ∀ a ∈ p.2, (alookup st.name_to_int a).isSome = true) →
      ((∀ nm i, alookup (records.foldl Proj.buildStep st).name_to_int nm = some i →
          (records.foldl Proj.buildStep st).int_to_name.getD i "" = nm ∧
          i < (records.foldl Proj.buildStep st).int_to_name.length) ∧
       (∀ i, i < (records.foldl Proj.buildStep st).int_to_name.length →
          alookup (records.foldl Proj.buildStep st).name_to_int
            ((records.foldl Proj.buildStep st).int_to_name.getD i "") = some i) ∧
       (∀ p ∈ (records.foldl Proj.buildStep st).movie_to_actor,
          ∀ a ∈ p.2, (alookup (records.foldl Proj.buildStep st).name_to_int a).isSome = true)) := by
  intro records
  induction records with
  | nil =>
    intro st h1 h2 h3
    exact ⟨h1, h2, h3⟩
  | cons r rest ih =>
    intro st h1 h2 h3
    rw [List.foldl_cons]
    -- establish the invariant for the single step, then recurse
    obtain ⟨an, tl, yr⟩ := r
    by_cases hreg : (alookup st.name_to_int an).isSome = true
    · -- the actor is already registered: the registry is unchanged
      have hstep : Proj.buildStep st (an, tl, yr) =
          ⟨st.name_to_int, st.int_to_name,
            if (alookup st.movie_to_actor (tl ++ yr)).isSome = true then
              amodify st.movie_to_actor (tl ++ yr) (fun l => l ++ [an])
            else st.movie_to_actor ++ [(tl ++ yr, [an])]⟩ := by
        simp [Proj.buildStep, hreg]
      rw [hstep]
      refine ih _ h1 h2 ?_
      intro p hp a ha
      by_cases hm : (alookup st.movie_to_actor (tl ++ yr)).isSome = true
      · rw [if_pos hm] at hp
        obtain ⟨q, hq, hor⟩ := mem_amodify p hp
        rcases hor with h | h
        · rw [h] at ha
          have ha' : a ∈ q.2 ++ [an] := ha
          rcases List.mem_append.mp ha' with h' | h'
          · exact h3 q hq a h'
          · rw [List.mem_singleton.mp h']
            exact hreg
        · rw [h] at ha
          exact h3 q hq a ha
      · rw [if_neg hm] at hp
        rcases List.mem_append.mp hp with h | h
        · exact h3 p h a ha
        · have hpe : p = (tl ++ yr, [an]) := List.mem_singleton.mp h
          rw [hpe] at ha
          have ha' : a ∈ [an] := ha
          rw [List.mem_singleton.mp ha']
          exact hreg
    · -- fresh actor: the registry grows by one pair
      have hnone : alookup st.name_to_int an = none := by
        rcases h : alookup st.name_to_int an with _ | v
        · rfl
        · rw [h] at hreg; simp at hreg
      have hstep : Proj.buildStep st (an, tl, yr) =
          ⟨st.name_to_int ++ [(an, st.int_to_name.length)], st.int_to_name ++ [an],
            if (alookup st.movie_to_actor (tl ++ yr)).isSome = true then
              amodify st.movie_to_actor (tl ++ yr) (fun l => l ++ [an])
            else st.movie_to_actor ++ [(tl ++ yr, [an])]⟩ := by
        simp [Proj.buildStep, hreg]
      rw [hstep]
      have hkeep : ∀ nm, (alookup st.name_to_int nm).isSome = true →
          alookup (st.name_to_int ++ [(an, st.int_to_name.length)]) nm =
            alookup st.name_to_int nm :=
        fun nm h => alookup_append_of_isSome h _
      have hnew : alookup (st.name_to_int ++ [(an, st.int_to_name.length)]) an =
          some st.int_to_name.length := by
        rw [alookup_append_of_none hnone]
        simp [alookup]
      refine ih _ ?_ ?_ ?_
      · intro nm i hl
        by_cases hs : (alookup st.name_to_int nm).isSome = true
        · rw [hkeep nm hs] at hl
          obtain ⟨ha, hb⟩ := h1 nm i hl
          constructor
          · rw [List.getD_append _ _ _ _ hb]
            exact ha
          · simp only [List.length_append, List.length_cons, List.length_nil]
            omega
        · have hn : alookup st.name_to_int nm = none := by
            rcases h : alookup st.name_to_int nm with _ | v
            · rfl
            · rw [h] at hs; simp at hs
          rw [alookup_append_of_none hn] at hl
          simp only [alookup] at hl
          by_cases he : an = nm
          · rw [if_pos he] at hl
            have h' : st.int_to_name.length = i := by injection hl
            subst h'
            subst he
            exact ⟨getD_append_length _ _ _, by simp⟩
          · rw [if_neg he] at hl
            cases hl
      · intro i hi
        simp only [List.length_append, List.length_cons, List.length_nil] at hi
        by_cases hlt : i < st.int_to_name.length
        · rw [List.getD_append _ _ _ _ hlt]
          have := h2 i hlt
          rw [hkeep _ (by rw [this]; rfl)]
          exact this
        · obtain rfl : i = st.int_to_name.length := by omega
          rw [getD_append_length]
          exact hnew
      · intro p hp a ha
        have hmem : ∀ b, (alookup st.name_to_int b).isSome = true →
            (alookup (st.name_to_int ++ [(an, st.int_to_name.length)]) b).isSome = true := by
          intro b hb
          rw [hkeep b hb]
          exact hb
        by_cases hm : (alookup st.movie_to_actor (tl ++ yr)).isSome = true
        · rw [if_pos hm] at hp
          obtain ⟨q, hq, hor⟩ := mem_amodify p hp
          rcases hor with h | h
          · rw [h] at ha
            have ha' : a ∈ q.2 ++ [an] := ha
            rcases List.mem_append.mp ha' with h' | h'
            · exact hmem a (h3 q hq a h')
            · rw [List.mem_singleton.mp h', hnew]
              rfl
          · rw [h] at ha
            exact hmem a (h3 q hq a ha)
        · rw [if_neg hm] at hp
          rcases List.mem_append.mp hp with h | h
          · exact hmem a (h3 p h a ha)
          · have hpe : p = (tl ++ yr, [an]) := List.mem_singleton.mp h
            rw [hpe] at ha
            have ha' : a ∈ [an] := ha
            rw [List.mem_singleton.mp ha', hnew]
            rfl

theorem build_reg_sound (records : List Proj.Rec) :
    (∀ nm i, alookup (Proj.build records).name_to_int nm = some i →
        (Proj.build records).int_to_name.getD i "" = nm ∧
        i < (Proj.build records).int_to_name.length) ∧
    (∀ i, i < (Proj.build records).int_to_name.length →
        alookup (Proj.build records).name_to_int
          ((Proj.build records).int_to_name.getD i "") = some i) ∧
    (∀ p ∈ (Proj.build records).movie_to_actor,
        ∀ a ∈ p.2, (alookup (Proj.build records).name_to_int a).isSome = true) := by
  refine build_inv records ⟨[], [], []⟩ ?_ ?_ ?_
  · intro nm i h
    simp [alookup] at h
  · intro i h
    simp at h
  · intro p hp
    cases hp

theorem lookupId_inj (records : List Proj.Rec) {a b : String}
    (ha : (alookup (Proj.build records).name_to_int a).isSome = true)
    (hb : (alookup (Proj.build records).name_to_int b).isSome = true)
    (hne : a ≠ b) :
    Proj.lookupId (Proj.build records).name_to_int a ≠
      Proj.lookupId (Proj.build records).name_to_int b := by
  obtain ⟨i, hi⟩ := Option.isSome_iff_exists.mp ha
  obtain ⟨j, hj⟩ := Option.isSome_iff_exists.mp hb
  intro hcontra
  rw [Proj.lookupId, Proj.lookupId, hi, hj] at hcontra
  simp only [Option.getD_some] at hcontra
  subst hcontra
  have h1 := ((build_reg_sound records).1 a i hi).1
  have h2 := ((build_reg_sound records).1 b i hj).1
  exact hne (h1 ▸ h2 ▸ rfl)

theorem setEdge_01 {g : Nat → Nat → Nat} (x y : Nat)
    (h : ∀ a b, g a b = 0 ∨ g a b = 1) :
    ∀ a b, Proj.setEdge g x y a b = 0 ∨ Proj.setEdge g x y a b = 1 := by
  intro a b
  unfold Proj.setEdge
  split
  · exact Or.inr rfl
  · exact h a b

theorem setEdge_symm {g : Nat → Nat → Nat} (x y : Nat)
    (h : ∀ a b, g a b = g b a) :
    ∀ a b, Proj.setEdge g x y a b = Proj.setEdge g x y b a := by
  intro a b
  unfold Proj.setEdge
  by_cases hc : (a = x ∧ b = y) ∨ (a = y ∧ b = x)
  · rw [if_pos hc, if_pos (by tauto)]
  · rw [if_neg hc, if_neg (by tauto)]
    exact h a b

theorem setEdge_diag {g : Nat → Nat → Nat} {x y : Nat} (hxy : x ≠ y) :
    ∀ i, Proj.setEdge g x y i i = g i i := by
  intro i
  unfold Proj.setEdge
  rw [if_neg]
  rintro (⟨h1, h2⟩ | ⟨h1, h2⟩) <;> exact hxy (h1 ▸ h2 ▸ rfl)

theorem inner_fold_01 (n2i : List (String × Nat)) (a : String) :
    ∀ (l : List String) (g : Nat → Nat → Nat), (∀ x y, g x y = 0 ∨ g x y = 1) →
      ∀ x y, (l.foldl (fun h b => Proj.setEdge h (Proj.lookupId n2i a) (Proj.lookupId n2i b)) g) x y = 0 ∨
        (l.foldl (fun h b => Proj.setEdge h (Proj.lookupId n2i a) (Proj.lookupId n2i b)) g) x y = 1 := by
  intro l
  induction l with
  | nil => intro g h x y; exact h x y
  | cons b rest ih =>
    intro g h x y
    exact ih _ (setEdge_01 _ _ h) x y

theorem addPairs_01 (n2i : List (String × Nat)) :
    ∀ (cast : List String) (g : Nat → Nat → Nat), (∀ a b, g a b = 0 ∨ g a b = 1) →
      ∀ a b, Proj.addPairs n2i g cast a b = 0 ∨ Proj.addPairs n2i g cast a b = 1 := by
  intro cast
  induction cast with
  | nil => intro g h a b; exact h a b
  | cons c rest ih =>
    intro g h a b
    exact ih _ (inner_fold_01 n2i c rest g h) a b

theorem m2a_fold_01 (n2i : List (String × Nat)) :
    ∀ (l : List (String × List String)) (g : Nat → Nat → Nat),
      (∀ a b, g a b = 0 ∨ g a b = 1) →
      ∀ i j, (l.foldl (fun g p => Proj.addPairs n2i g p.2) g) i j = 0 ∨
        (l.foldl (fun g p => Proj.addPairs n2i g p.2) g) i j = 1 := by
  intro l
  induction l with
  | nil => intro g h i j; exact h i j
  | cons p rest ih =>
    intro g h i j
    exact ih _ (addPairs_01 n2i p.2 g h) i j

theorem buildGraph_01 (st : Proj.BuildSt) :
    ∀ i j, Proj.buildGraph st i j = 0 ∨ Proj.buildGraph st i j = 1 :=
  m2a_fold_01 st.name_to_int st.movie_to_actor _ (fun _ _ => Or.inl rfl)

theorem inner_fold_symm (n2i : List (String × Nat)) (a : String) :
    ∀ (l : List String) (g : Nat → Nat → Nat), (∀ x y, g x y = g y x) →
      ∀ x y, (l.foldl (fun h b => Proj.setEdge h (Proj.lookupId n2i a) (Proj.lookupId n2i b)) g) x y =
        (l.foldl (fun h b => Proj.setEdge h (Proj.lookupId n2i a) (Proj.lookupId n2i b)) g) y x := by
  intro l
  induction l with
  | nil => intro g h x y; exact h x y
  | cons b rest ih =>
    intro g h x y
    exact ih _ (setEdge_symm _ _ h) x y

theorem addPairs_symm (n2i : List (String × Nat)) :
    ∀ (cast : List String) (g : Nat → Nat → Nat), (∀ a b, g a b = g b a) →
      ∀ a b, Proj.addPairs n2i g cast a b = Proj.addPairs n2i g cast b a := by
  intro cast
  induction cast with
  | nil => intro g h a b; exact h a b
  | cons c rest ih =>
    intro g h a b
    exact ih _ (inner_fold_symm n2i c rest g h) a b

theorem m2a_fold_symm (n2i : List (String × Nat)) :
    ∀ (l : List (String × List String)) (g : Nat → Nat → Nat),
      (∀ a b, g a b = g b a) →
      ∀ i j, (l.foldl (fun g p => Proj.addPairs n2i g p.2) g) i j =
        (l.foldl (fun g p => Proj.addPairs n2i g p.2) g) j i := by
  intro l
  induction l with
  | nil => intro g h i j; exact h i j
  | cons p rest ih =>
    intro g h i j
    exact ih _ (addPairs_symm n2i p.2 g h) i j

theorem buildGraph_symm (st : Proj.BuildSt) :
    ∀ i j, Proj.buildGraph st i j = Proj.buildGraph st j i :=
  m2a_fold_symm st.name_to_int st.movie_to_actor _ (fun _ _ => rfl)

theorem inner_fold_diag (n2i : List (String × Nat)) (a : String) :
    ∀ (l : List String) (g : Nat → Nat → Nat) (i : Nat),
      (∀ b ∈ l, Proj.lookupId n2i a ≠ Proj.lookupId n2i b) →
      g i i = 0 →
      (l.foldl (fun h b => Proj.setEdge h (Proj.lookupId n2i a) (Proj.lookupId n2i b)) g) i i = 0 := by
  intro l
  induction l with
  | nil => intro g i _ h0; exact h0
  | cons b rest ih =>
    intro g i hne h0
    rw [List.foldl_cons]
    refine ih _ i (fun c hc => hne c (List.mem_cons_of_mem _ hc)) ?_
    rw [setEdge_diag (hne b (List.mem_cons_self _ _))]
    exact h0

theorem addPairs_diag (n2i : List (String × Nat)) :
    ∀ (cast : List String) (g : Nat → Nat → Nat) (i : Nat),
      cast.Pairwise (fun a b => Proj.lookupId n2i a ≠ Proj.lookupId n2i b) →
      g i i = 0 →
      Proj.addPairs n2i g cast i i = 0 := by
  intro cast
  induction cast with
  | nil => intro g i _ h0; exact h0
  | cons c rest ih =>
    intro g i hpw h0
    obtain ⟨hc, hrest⟩ := List.pairwise_cons.mp hpw
    exact ih _ i hrest (inner_fold_diag n2i c rest g i hc h0)

theorem m2a_fold_diag (n2i : List (String × Nat)) :
    ∀ (l : List (String × List String)) (g : Nat → Nat → Nat) (i : Nat),
      (∀ p ∈ l, p.2.Pairwise (fun a b => Proj.lookupId n2i a ≠ Proj.lookupId n2i b)) →
      g i i = 0 →
      (l.foldl (fun g p => Proj.addPairs n2i g p.2) g) i i = 0 := by
  intro l
  induction l with
  | nil => intro g i _ h0; exact h0
  | cons p rest ih =>
    intro g i hpw h0
    rw [List.foldl_cons]
    exact ih _ i (fun q hq => hpw q (List.mem_cons_of_mem _ hq))
      (addPairs_diag n2i p.2 g i (hpw p (List.mem_cons_self _ _)) h0)

theorem buildGraph_diag (records : List Proj.Rec)
    (hnodup : ∀ p ∈ (Proj.build records).movie_to_actor, p.2.Nodup) :
    ∀ i, Proj.buildGraph (Proj.build records) i i = 0 := by
  intro i
  rw [Proj.buildGraph]
  refine m2a_fold_diag _ _ _ i ?_ rfl
  intro p hp
  refine List.Pairwise.imp_of_mem ?_ (hnodup p hp)
  intro a b ha hb hne
  exact lookupId_inj records ((build_reg_sound records).2.2 p hp a ha)
    ((build_reg_sound records).2.2 p hp b hb) hne

/-- C6 (amended): for every dataset the projected adjacency matrix built
by `BuildStructures` is symmetric; and for every dataset in which no
movie's cast list repeats an actor, its diagonal is zero.  (With a
repeated cast entry the pair loop writes `graph[i][i] = 1`;
see the counterexample.) -/
theorem C6_amended (records : List Proj.Rec) :
    (∀ i j, Proj.buildGraph (Proj.build records) i j =
      Proj.buildGraph (Proj.build records) j i) ∧
    ((∀ p ∈ (Proj.build records).movie_to_actor, p.2.Nodup) →
      ∀ i, Proj.buildGraph (Proj.build records) i i = 0) :=
  ⟨buildGraph_symm _, fun h => buildGraph_diag records h⟩

/-- Witness for C6 (amended) on the example dataset: the matrix is
symmetric at (0, 1) and the diagonal entry of actor 1 is zero (its casts
have no duplicates). -/
theorem C6_amended_witness :
    Proj.buildGraph (Proj.build exRecords) 0 1 = Proj.buildGraph (Proj.build exRecords) 1 0 ∧
    Proj.buildGraph (Proj.build exRecords) 1 1 = 0 :=
  ⟨(C6_amended exRecords).1 0 1, (C6_amended exRecords).2 (by decide) 1⟩

theorem data_append (a b : String) : (a ++ b).data = a.data ++ b.data := by
  cases a
  cases b
  rfl

theorem sep_append_inj :
    ∀ (l1 : List Char) {l2 m1 m2 : List Char}, '#' ∉ l1 → '#' ∉ l2 →
      l1 ++ '#' :: '@' :: m1 = l2 ++ '#' :: '@' :: m2 → l1 = l2 ∧ m1 = m2 := by
  intro l1
  induction l1 with
  | nil =>
    intro l2 m1 m2 _ h2 heq
    cases l2 with
    | nil =>
      simp only [List.nil_append] at heq
      injection heq with e1 heq
      injection heq with e2 heq
      exact ⟨rfl, heq⟩
    | cons d l2' =>
      simp only [List.nil_append, List.cons_append] at heq
      injection heq with e1 _
      exact absurd (List.mem_cons_self d l2') (by rw [← e1] at h2 ⊢; exact fun h => h2 h)
  | cons c l1' ih =>
    intro l2 m1 m2 h1 h2 heq
    cases l2 with
    | nil =>
      simp only [List.nil_append, List.cons_append] at heq
      injection heq with e1 _
      exact absurd (List.mem_cons_self c l1') (by rw [e1] at h1 ⊢; exact fun h => h1 h)
    | cons d l2' =>
      simp only [List.cons_append] at heq
      injection heq with e1 heq
      obtain ⟨ha, hb⟩ := ih (fun h => h1 (List.mem_cons_of_mem _ h))
        (fun h => h2 (List.mem_cons_of_mem _ h)) heq
      exact ⟨by rw [e1, ha], hb⟩

/-- C8 (amended): records with equal (title, year) always map to the same
movie.  In the predictor/popularityfinder `BuildStructures` the movie key
is the bare concatenation `title ++ year`, so two records are grouped into
the same movie exactly when their concatenations coincide — which can
conflate distinct (title, year) pairs.  In the pathfinder the key is
`title ++ "#@" ++ year`, which separates distinct pairs whenever the
titles do not contain the `'#'` character. -/
theorem C8_amended :
    (∀ (a t y a' t' y' : String),
      (Proj.build [(a, t, y), (a', t', y')]).movie_to_actor =
        if t ++ y = t' ++ y' then [(t ++ y, [a, a'])]
        else [(t ++ y, [a]), (t' ++ y', [a'])]) ∧
    (∀ (t y t' y' : String), '#' ∉ t.data → '#' ∉ t'.data →
      (t ++ "#@" ++ y = t' ++ "#@" ++ y' ↔ t = t' ∧ y = y')) := by
  constructor
  · intro a t y a' t' y'
    have hstep1 : (Proj.buildStep ⟨[], [], []⟩ (a, t, y)).movie_to_actor = [(t ++ y, [a])] := by
      simp [Proj.buildStep, alookup]
    have hbuild : (Proj.build [(a, t, y), (a', t', y')]).movie_to_actor =
        (Proj.buildStep (Proj.buildStep ⟨[], [], []⟩ (a, t, y)) (a', t', y')).movie_to_actor := rfl
    rw [hbuild]
    generalize hst : Proj.buildStep ⟨[], [], []⟩ (a, t, y) = st1 at hstep1 ⊢
    by_cases hk : t ++ y = t' ++ y'
    · rw [if_pos hk]
      simp only [Proj.buildStep, hstep1]
      rw [← hk]
      simp [alookup, amodify]
    · rw [if_neg hk]
      simp only [Proj.buildStep, hstep1]
      simp [alookup, amodify, hk]
  · intro t y t' y' h1 h2
    constructor
    · intro heq
      have hd0 := congrArg String.data heq
      rw [data_append, data_append, data_append, data_append] at hd0
      have hsep : ("#@" : String).data = ['#', '@'] := rfl
      rw [hsep] at hd0
      rw [List.append_assoc, List.append_assoc] at hd0
      obtain ⟨ha, hb⟩ := sep_append_inj t.data h1 h2 hd0
      refine ⟨?_, ?_⟩
      · cases t; cases t'; exact congrArg String.mk ha
      · cases y; cases y'; exact congrArg String.mk hb
    · rintro ⟨rfl, rfl⟩
      rfl

/-- Witness for C8 (amended) at concrete inputs: the colliding pair is
merged by the predictor builder, a non-colliding pair is kept separate,
and the pathfinder keys of '#'-free titles are injective. -/
theorem C8_amended_witness :
    (Proj.build [("A", "X1", "999"), ("B", "X19", "99")]).movie_to_actor =
      (if ("X1" ++ "999" : String) = "X19" ++ "99" then [("X1" ++ "999", ["A", "B"])]
       else [("X1" ++ "999", ["A"]), ("X19" ++ "99", ["B"])]) ∧
    (("X1" ++ "#@" ++ "999" : String) = "X19" ++ "#@" ++ "99" ↔ "X1" = "X19" ∧ "999" = "99") :=
  ⟨(C8_amended.1) "A" "X1" "999" "B" "X19" "99",
   (C8_amended.2) "X1" "999" "X19" "99" (by decide) (by decide)⟩

theorem str_append_empty (s : String) : s ++ "" = s := by
  cases s
  exact congrArg String.mk (List.append_nil _)

theorem str_append_assoc (a b c : String) : a ++ b ++ c = a ++ (b ++ c) := by
  cases a
  cases b
  cases c
  exact congrArg String.mk (List.append_assoc _ _ _)

theorem emitPairs_length : ∀ (l : List (Nat × String)) (i : Nat),
    (Predictor.emitPairs l i).length ≤ 4 - i := by
  intro l
  induction l with
  | nil => intro i; simp [Predictor.emitPairs]
  | cons p rest ih =>
    intro i
    rw [Predictor.emitPairs]
    split
    · simp
    · rename_i hcond
      push_neg at hcond
      have := ih (i + 1)
      simp only [List.length_cons]
      omega

theorem emitLine_shape : ∀ (ps : List (Nat × String)), ps.length ≤ 4 →
    Predictor.emitLine ps 0 =
      (if ps.length = 4 then tabSep (ps.map (fun p => p.2))
       else tabJoin (ps.map (fun p => p.2))) := by
  intro ps hlen
  rcases ps with _ | ⟨p1, _ | ⟨p2, _ | ⟨p3, _ | ⟨p4, _ | ⟨p5, tail⟩⟩⟩⟩⟩
  · rfl
  · simp [Predictor.emitLine, tabJoin]
  · simp [Predictor.emitLine, tabJoin, str_append_assoc]
  · simp [Predictor.emitLine, tabJoin, str_append_assoc]
  · simp [Predictor.emitLine, tabSep, str_append_assoc, str_append_empty]
  · simp only [List.length_cons] at hlen
    omega

/-- C9 (amended): for every dataset, target name and mode, the written
line consists of the emitted candidate names each followed by a single
tab, except that the tab is omitted at index `predict_max - 1 = 3`:
with exactly 4 emitted names the names are tab-separated with no trailing
tab, with 1 – 3 names a trailing tab follows the last name, and with no
qualifying candidate the line is blank. -/
theorem C9_amended (st : Proj.BuildSt) (actor : String) (neighbor : Bool) :
    Predictor.lineForTarget st actor neighbor =
      (if (Predictor.emittedNames st (Proj.lookupId st.name_to_int actor) neighbor).length = 4
       then tabSep (Predictor.emittedNames st (Proj.lookupId st.name_to_int actor) neighbor)
       else tabJoin (Predictor.emittedNames st (Proj.lookupId st.name_to_int actor) neighbor)) := by
  have hlen := emitPairs_length
    (List.insertionSort Predictor.cmpLe
      (Predictor.predictsFor (Proj.buildGraph st) st.int_to_name.length st.int_to_name
        (Proj.lookupId st.name_to_int actor) neighbor)) 0
  rw [Predictor.lineForTarget, Predictor.emittedNames]
  rw [emitLine_shape _ (by omega)]
  simp only [List.length_map]

theorem mutualRow_eq_mutualSpec {g : Nat → Nat → Nat}
    (h01 : ∀ i j, g i j = 0 ∨ g i j = 1) (u v : Nat) :
    ∀ n, Predictor.mutualRow g n u v = Spec.mutualSpec g n u v := by
  intro n
  induction n with
  | zero => rfl
  | succ n ih =>
    have hrow : Predictor.mutualRow g (n + 1) u v =
        Predictor.mutualRow g n u v + Nat.land (g v n) (g u n) := by
      rw [Predictor.mutualRow, Predictor.mutualRow, List.range_succ, List.foldl_append]
      rfl
    have hnotmem : n ∉ (Finset.range n).filter (fun j => g u j = 1 ∧ g v j = 1) := by
      intro h
      exact absurd (Finset.mem_range.mp (Finset.mem_filter.mp h).1) (lt_irrefl n)
    have hspec : Spec.mutualSpec g (n + 1) u v =
        Spec.mutualSpec g n u v + (if g u n = 1 ∧ g v n = 1 then 1 else 0) := by
      rw [Spec.mutualSpec, Spec.mutualSpec, Finset.range_succ, Finset.filter_insert]
      split
      · rw [Finset.card_insert_of_not_mem hnotmem]
      · rfl
    rw [hrow, hspec, ih]
    have l00 : Nat.land 0 0 = 0 := rfl
    have l01 : Nat.land 0 1 = 0 := rfl
    have l10 : Nat.land 1 0 = 0 := rfl
    have l11 : Nat.land 1 1 = 1 := rfl
    rcases h01 u n with hu | hu <;> rcases h01 v n with hv | hv <;>
      simp [hu, hv, l00, l01, l10, l11]

theorem emitPairs_takeWhile :
    ∀ (l : List (Nat × String)) (i : Nat),
      Predictor.emitPairs l i = (l.takeWhile (fun p => p.1 ≠ 0)).take (4 - i) := by
  intro l
  induction l with
  | nil => intro i; simp [Predictor.emitPairs]
  | cons p rest ih =>
    intro i
    rw [Predictor.emitPairs]
    by_cases hz : p.1 = 0
    · rw [if_pos (Or.inl hz)]
      rw [List.takeWhile_cons]
      simp [hz]
    · by_cases hi : 4 ≤ i
      · rw [if_pos (Or.inr hi)]
        have : 4 - i = 0 := by omega
        rw [this, List.take_zero]
      · rw [if_neg (by tauto)]
        have h4 : 4 - i = (4 - (i + 1)) + 1 := by omega
        rw [List.takeWhile_cons, if_pos (by simpa using hz), h4, List.take_succ_cons, ih]

theorem takeWhile_eq_filter_of_desc :
    ∀ (l : List (Nat × String)), l.Pairwise (fun x y => y.1 ≤ x.1) →
      l.takeWhile (fun p => p.1 ≠ 0) = l.filter (fun p => p.1 ≠ 0) := by
  intro l
  induction l with
  | nil => intro _; rfl
  | cons p rest ih =>
    intro hpw
    obtain ⟨hhd, htl⟩ := List.pairwise_cons.mp hpw
    have hall : ∀ q ∈ rest, q.1 ≤ p.1 := hhd
    by_cases hz : p.1 = 0
    · rw [List.takeWhile_cons, List.filter_cons]
      rw [if_neg (by simpa using hz), if_neg (by simpa using hz)]
      refine (List.filter_eq_nil.mpr ?_).symm
      intro q hq
      have := hall q hq
      simp only [decide_eq_true_eq, Decidable.not_not]
      omega
    · rw [List.takeWhile_cons, List.filter_cons,
        if_pos (by simpa using hz), if_pos (by simpa using hz), ih htl]

theorem cmpLe_iff_rankLe (x y : Nat × String) : Predictor.cmpLe x y ↔ Spec.rankLe x y := by
  unfold Predictor.cmpLe Predictor.cmpPair Spec.rankLe
  by_cases h : y.1 = x.1
  · rw [if_pos h]
    constructor
    · intro hs
      exact Or.inr ⟨h.symm, hs⟩
    · rintro (hlt | ⟨_, hs⟩)
      · omega
      · exact hs
  · rw [if_neg h]
    constructor
    · intro hs
      simp only [decide_eq_false_iff_not, gt_iff_lt, not_lt] at hs
      exact Or.inl (by omega)
    · rintro (hlt | ⟨heq, _⟩)
      · simp only [decide_eq_false_iff_not, gt_iff_lt, not_lt]
        omega
      · exact absurd heq.symm h

theorem rankLe_total (x y : Nat × String) : Spec.rankLe x y ∨ Spec.rankLe y x := by
  unfold Spec.rankLe
  rcases Nat.lt_trichotomy x.1 y.1 with h | h | h
  · exact Or.inr (Or.inl h)
  · rcases sLe_total x.2 y.2 with hs | hs
    · exact Or.inl (Or.inr ⟨h, hs⟩)
    · exact Or.inr (Or.inr ⟨h.symm, hs⟩)
  · exact Or.inl (Or.inl h)

theorem rankLe_trans {x y z : Nat × String}
    (h1 : Spec.rankLe x y) (h2 : Spec.rankLe y z) : Spec.rankLe x z := by
  unfold Spec.rankLe at h1 h2 ⊢
  rcases h1 with h1 | ⟨h1a, h1b⟩
  · rcases h2 with h2 | ⟨h2a, h2b⟩
    · exact Or.inl (by omega)
    · exact Or.inl (by omega)
  · rcases h2 with h2 | ⟨h2a, h2b⟩
    · exact Or.inl (by omega)
    · exact Or.inr ⟨by omega, sLe_trans h1b h2b⟩

theorem rankLe_antisymm {x y : Nat × String}
    (h1 : Spec.rankLe x y) (h2 : Spec.rankLe y x) : x = y := by
  obtain ⟨x1, x2⟩ := x
  obtain ⟨y1, y2⟩ := y
  unfold Spec.rankLe at h1 h2
  simp only at h1 h2
  rcases h1 with h1 | ⟨h1a, h1b⟩
  · rcases h2 with h2 | ⟨h2a, h2b⟩
    · omega
    · omega
  · rcases h2 with h2 | ⟨h2a, h2b⟩
    · omega
    · rw [h1a, sLe_antisymm h1b h2b]

theorem cmpLe_total (x y : Nat × String) : Predictor.cmpLe x y ∨ Predictor.cmpLe y x := by
  rcases rankLe_total x y with h | h
  · exact Or.inl ((cmpLe_iff_rankLe x y).mpr h)
  · exact Or.inr ((cmpLe_iff_rankLe y x).mpr h)

theorem cmpLe_trans {x y z : Nat × String}
    (h1 : Predictor.cmpLe x y) (h2 : Predictor.cmpLe y z) : Predictor.cmpLe x z :=
  (cmpLe_iff_rankLe x z).mpr
    (rankLe_trans ((cmpLe_iff_rankLe x y).mp h1) ((cmpLe_iff_rankLe y z).mp h2))

theorem cmpLe_count_le {x y : Nat × String} (h : Predictor.cmpLe x y) : y.1 ≤ x.1 := by
  rcases (cmpLe_iff_rankLe x y).mp h with h | ⟨h, _⟩
  · omega
  · omega

theorem filter_filter_own {α : Type} (p q : α → Bool) :
    ∀ l : List α, (l.filter p).filter q = l.filter (fun a => p a && q a) := by
  intro l
  induction l with
  | nil => rfl
  | cons a rest ih =>
    by_cases hp : p a = true
    · by_cases hq : q a = true
      · simp [List.filter_cons, hp, hq, ih]
      · simp only [Bool.not_eq_true] at hq
        simp [List.filter_cons, hp, hq, ih]
    · simp only [Bool.not_eq_true] at hp
      simp [List.filter_cons, hp, ih]

/-- C7: for every dataset and every query actor present in the registry,
in each mode, the emitted candidate names are exactly the top (at most) 4
of the specification-side ranking: the candidates of that adjacency mode
other than the query actor itself with a positive mutual-neighbour count,
ordered by descending mutual count with ties broken by ascending name —
and the query actor's own name never appears among them. -/
theorem C7_link_scorer (records : List Proj.Rec) (t : String) (u : Nat) (neighbor : Bool)
    (hu : alookup (Proj.build records).name_to_int t = some u) :
    Proj.lookupId (Proj.build records).name_to_int t = u ∧
    Predictor.emittedNames (Proj.build records) u neighbor =
      ((Spec.ranked (Proj.buildGraph (Proj.build records))
          (Proj.build records).int_to_name.length
          (Proj.build records).int_to_name u neighbor).take 4).map (fun p => p.2) ∧
    t ∉ Predictor.emittedNames (Proj.build records) u neighbor := by
  have h01 := buildGraph_01 (Proj.build records)
  obtain ⟨hreg1, hreg2, hreg3⟩ := build_reg_sound records
  have hlook : Proj.lookupId (Proj.build records).name_to_int t = u := by
    rw [Proj.lookupId, hu]
    rfl
  set st := Proj.build records with hst
  set i2n := st.int_to_name with hi2n
  set n := i2n.length with hn
  set g := Proj.buildGraph st with hg
  set predicts := Predictor.predictsFor g n i2n u neighbor with hpredicts
  set sortedP := List.insertionSort Predictor.cmpLe predicts with hsortedP
  set qual := Spec.qualified g n i2n u neighbor with hqual
  set R := Spec.ranked g n i2n u neighbor with hR
  haveI instTot : IsTotal (Nat × String) Predictor.cmpLe := ⟨cmpLe_total⟩
  haveI instTrans : IsTrans (Nat × String) Predictor.cmpLe :=
    ⟨fun _ _ _ => cmpLe_trans⟩
  haveI instTotR : IsTotal (Nat × String) Spec.rankLe := ⟨rankLe_total⟩
  haveI instTransR : IsTrans (Nat × String) Spec.rankLe :=
    ⟨fun _ _ _ => rankLe_trans⟩
  haveI instAntiR : IsAntisymm (Nat × String) Spec.rankLe :=
    ⟨fun _ _ => rankLe_antisymm⟩
  have hsorted : List.Sorted Predictor.cmpLe sortedP := List.sorted_insertionSort _ _
  have hdesc : sortedP.Pairwise (fun x y => y.1 ≤ x.1) :=
    hsorted.imp (fun h => cmpLe_count_le h)
  have e1 : Predictor.emitPairs sortedP 0 =
      (sortedP.filter (fun p => p.1 ≠ 0)).take 4 := by
    rw [emitPairs_takeWhile, takeWhile_eq_filter_of_desc sortedP hdesc]
  have e2 : predicts.filter (fun p => p.1 ≠ 0) = qual := by
    rw [hpredicts, Predictor.predictsFor, hqual, Spec.qualified]
    rw [List.map_filter, filter_filter_own]
    have hcond : ∀ i ∈ List.range n,
        ((fun i => decide (g u i = if neighbor then 1 else 0)) i &&
          ((fun p => decide (p.1 ≠ 0)) ∘
            (fun i => (Predictor.mutualCount g n u i, i2n.getD i ""))) i) =
          (fun v => decide (v ≠ u ∧ g u v = (if neighbor then 1 else 0) ∧
            0 < Spec.mutualSpec g n u v)) i := by
      intro i _
      by_cases hiu : i = u
      · subst hiu
        simp [Predictor.mutualCount]
      · simp only [Function.comp, Predictor.mutualCount, if_neg hiu]
        rw [mutualRow_eq_mutualSpec h01 u i n]
        by_cases hmode : g u i = (if neighbor then 1 else 0)
        · simp [hmode, hiu, Nat.pos_iff_ne_zero]
        · simp [hmode]
    rw [List.filter_congr' hcond]
    apply List.map_eq_map_iff.mpr
    intro i hi
    have hif := List.mem_filter.mp hi
    have hiu : i ≠ u := by
      have := hif.2
      simp only [decide_eq_true_eq] at this
      exact this.1
    simp only [Predictor.mutualCount, if_neg hiu]
    rw [mutualRow_eq_mutualSpec h01 u i n]
  have permL : (sortedP.filter (fun p => p.1 ≠ 0)).Perm qual := by
    have hp := (List.perm_insertionSort Predictor.cmpLe predicts).filter
      (fun p => decide (p.1 ≠ 0))
    rw [e2] at hp
    exact hp
  have permR : R.Perm qual := List.perm_insertionSort _ _
  have sortL : (sortedP.filter (fun p => p.1 ≠ 0)).Pairwise Spec.rankLe :=
    (hsorted.filter _).imp (fun h => (cmpLe_iff_rankLe _ _).mp h)
  have sortR : R.Pairwise Spec.rankLe := List.sorted_insertionSort _ _
  have eLR : sortedP.filter (fun p => p.1 ≠ 0) = R :=
    List.eq_of_perm_of_sorted (permL.trans permR.symm) sortL sortR
  have main1 : Predictor.emittedNames st u neighbor = (R.take 4).map (fun p => p.2) := by
    rw [Predictor.emittedNames, ← hi2n, ← hn, ← hg, ← hpredicts, ← hsortedP, e1, eLR]
  refine ⟨hlook, main1, ?_⟩
  rw [main1]
  intro hmem
  obtain ⟨p, hp, hpt⟩ := List.mem_map.mp hmem
  have hpR : p ∈ R := List.take_subset _ _ hp
  have hpq : p ∈ qual := permR.mem_iff.mp hpR
  rw [hqual, Spec.qualified] at hpq
  obtain ⟨v, hv, rfl⟩ := List.mem_map.mp hpq
  have hvf := List.mem_filter.mp hv
  have hvn : v < n := List.mem_range.mp hvf.1
  have hvu : v ≠ u := by
    have := hvf.2
    simp only [decide_eq_true_eq] at this
    exact this.1
  obtain ⟨hun, hult⟩ := hreg1 t u hu
  have lv : alookup st.name_to_int (i2n.getD v "") = some v := hreg2 v hvn
  have lu : alookup st.name_to_int (i2n.getD u "") = some u := hreg2 u hult
  simp only at hpt
  rw [hpt, ← hun] at lv
  rw [lu] at lv
  have huv : u = v := by injection lv
  exact hvu huv.symm

/-- Witness for C7 at a concrete input: the example dataset, target A
(id 0), predict mode. -/
theorem C7_link_scorer_witness :
    Proj.lookupId (Proj.build exRecords).name_to_int "A" = 0 ∧
    Predictor.emittedNames (Proj.build exRecords) 0 true =
      ((Spec.ranked (Proj.buildGraph (Proj.build exRecords))
          (Proj.build exRecords).int_to_name.length
          (Proj.build exRecords).int_to_name 0 true).take 4).map (fun p => p.2) ∧
    "A" ∉ Predictor.emittedNames (Proj.build exRecords) 0 true :=
  C7_link_scorer exRecords "A" 0 true (by decide)

theorem prunePass_le (g : Nat → Nat → Nat) (n : Nat) (k : Int) :
    ∀ (l : List Nat) (c : Nat → Int) (flag : Bool) (j : Nat),
      (Popularity.prunePass g n k l c flag).1 j ≤ c j := by
  intro l
  induction l with
  | nil => intro c flag j; simp [Popularity.prunePass]
  | cons i rest ih =>
    intro c flag j
    rw [Popularity.prunePass]
    split
    · refine le_trans (ih _ _ j) ?_
      rename_i hcond
      by_cases hj : j = i
      · subst hj
        simp only [if_pos rfl]
        exact le_of_lt hcond.2
      · simp only [if_neg hj]
        split <;> omega
    · exact ih _ _ j

theorem prunePass_flag_mono (g : Nat → Nat → Nat) (n : Nat) (k : Int) :
    ∀ (l : List Nat) (c : Nat → Int), (Popularity.prunePass g n k l c true).2 = true := by
  intro l
  induction l with
  | nil => intro c; simp [Popularity.prunePass]
  | cons i rest ih =>
    intro c
    rw [Popularity.prunePass]
    split <;> exact ih _

theorem countP_lt_of_witness {l : List Nat} {p q : Nat → Bool}
    (hmono : ∀ a ∈ l, q a = true → p a = true)
    {a0 : Nat} (ha0 : a0 ∈ l) (hp : p a0 = true) (hq : q a0 = false) :
    l.countP q < l.countP p := by
  induction l with
  | nil => cases ha0
  | cons x xs ih =>
    rw [List.countP_cons, List.countP_cons]
    rcases List.mem_cons.mp ha0 with h | h
    · subst h
      have h1 : xs.countP q ≤ xs.countP p :=
        List.countP_mono_left (fun a ha => hmono a (List.mem_cons_of_mem _ ha))
      rw [hp, hq]
      have e1 : (if (true : Bool) = true then 1 else 0) = 1 := rfl
      have e2 : (if (false : Bool) = true then 1 else 0) = 0 := rfl
      rw [e1, e2]
      omega
    · have h1 := ih (fun a ha => hmono a (List.mem_cons_of_mem _ ha)) h
      have h2 : (if q x = true then 1 else 0) ≤ (if p x = true then 1 else 0) := by
        by_cases hqx : q x = true
        · rw [hqx, hmono x (List.mem_cons_self _ _) hqx]
        · rw [Bool.not_eq_true] at hqx
          rw [hqx]
          exact Nat.zero_le _
      omega

theorem prunePass_active_lt (g : Nat → Nat → Nat) (n : Nat) (k : Int) :
    ∀ (l : List Nat) (c : Nat → Int), (∀ x ∈ l, x < n) →
      (Popularity.prunePass g n k l c false).2 = true →
      Popularity.activeCount n (Popularity.prunePass g n k l c false).1 <
        Popularity.activeCount n c := by
  intro l
  induction l with
  | nil =>
    intro c _ h
    simp [Popularity.prunePass] at h
  | cons i rest ih =>
    intro c hl h
    by_cases hcond : c i < k ∧ -(n : Int) < c i
    · rw [Popularity.prunePass, if_pos hcond] at h ⊢
      set c2 : Nat → Int :=
        fun j => if j = i then -(n : Int) else if g i j ≠ 0 then c j - 1 else c j with hc2
      have hfin_le : ∀ j, (Popularity.prunePass g n k rest c2 true).1 j ≤ c2 j :=
        fun j => prunePass_le g n k rest c2 true j
      have hc2le : ∀ j, c2 j ≤ c j := by
        intro j
        by_cases hj : j = i
        · subst hj
          simp only [hc2, if_pos rfl]
          exact le_of_lt hcond.2
        · simp only [hc2, if_neg hj]
          split <;> omega
      refine countP_lt_of_witness (l := List.range n)
        (p := fun j => decide (-(n : Int) < c j))
        (q := fun j => decide (-(n : Int) < (Popularity.prunePass g n k rest c2 true).1 j))
        ?_ (List.mem_range.mpr (hl i (List.mem_cons_self _ _))) ?_ ?_
      · intro a _ hq
        simp only [decide_eq_true_eq] at hq ⊢
        exact lt_of_lt_of_le hq (le_trans (hfin_le a) (hc2le a))
      · simpa using hcond.2
      · simp only [decide_eq_false_iff_not, not_lt]
        refine le_trans (hfin_le i) ?_
        simp [hc2]
    · rw [Popularity.prunePass, if_neg hcond] at h ⊢
      exact ih c (fun x hx => hl x (List.mem_cons_of_mem _ hx)) h

theorem prunePass_noop (g : Nat → Nat → Nat) (n : Nat) (k : Int) :
    ∀ (l : List Nat) (c : Nat → Int),
      (Popularity.prunePass g n k l c false).2 = false →
      (Popularity.prunePass g n k l c false).1 = c ∧
        ∀ i ∈ l, ¬(c i < k ∧ -(n : Int) < c i) := by
  intro l
  induction l with
  | nil =>
    intro c _
    exact ⟨rfl, by intro i h; cases h⟩
  | cons i rest ih =>
    intro c hflag
    by_cases hcond : c i < k ∧ -(n : Int) < c i
    · rw [Popularity.prunePass, if_pos hcond] at hflag
      rw [prunePass_flag_mono] at hflag
      cases hflag
    · rw [Popularity.prunePass, if_neg hcond] at hflag ⊢
      obtain ⟨h1, h2⟩ := ih c hflag
      refine ⟨h1, ?_⟩
      intro j hj
      rcases List.mem_cons.mp hj with h | h
      · subst h
        exact hcond
      · exact h2 j h

theorem rowSum_eq_card {g : Nat → Nat → Nat}
    (h01 : ∀ i j, g i j = 0 ∨ g i j = 1) (i : Nat) :
    ∀ n, Popularity.rowSum g n i =
      (((Finset.range n).filter (fun j => g i j = 1)).card : Int) := by
  intro n
  induction n with
  | zero => rfl
  | succ n ih =>
    have hrow : Popularity.rowSum g (n + 1) i =
        Popularity.rowSum g n i + (g i n : Int) := by
      rw [Popularity.rowSum, Popularity.rowSum, List.range_succ, List.foldl_append]
      rfl
    have hnotmem : n ∉ (Finset.range n).filter (fun j => g i j = 1) := by
      intro h
      exact absurd (Finset.mem_range.mp (Finset.mem_filter.mp h).1) (lt_irrefl n)
    rw [hrow, ih, Finset.range_succ, Finset.filter_insert]
    rcases h01 i n with h | h
    · rw [if_neg (by omega), h]
      simp
    · rw [if_pos h, h, Finset.card_insert_of_not_mem hnotmem]
      push_cast
      ring

theorem rowSum_nonneg {g : Nat → Nat → Nat}
    (h01 : ∀ i j, g i j = 0 ∨ g i j = 1) (i n : Nat) :
    0 ≤ Popularity.rowSum g n i := by
  rw [rowSum_eq_card h01]
  exact Int.natCast_nonneg _

theorem pruneInv_init {g : Nat → Nat → Nat} {n : Nat} {k : Int}
    (h01 : ∀ i j, g i j = 0 ∨ g i j = 1) :
    Spec.PruneInv g n k (Popularity.rowSum g n) := by
  have hactive : ∀ j, j < n → -(n : Int) < Popularity.rowSum g n j := by
    intro j hj
    have := rowSum_nonneg h01 j n
    omega
  refine ⟨?_, ?_, ?_⟩
  · intro i hi _
    rw [Spec.liveDeg, rowSum_eq_card h01]
    congr 2
    refine Finset.filter_congr ?_
    intro j hj
    have := hactive j (Finset.mem_range.mp hj)
    simp [this]
  · intro T hT i hi
    exact hactive i (hT.1 i hi)
  · intro i hi hna
    exact absurd (hactive i hi) hna

theorem pruneInv_delete {g : Nat → Nat → Nat} {n : Nat} {k : Int}
    (h01 : ∀ i j, g i j = 0 ∨ g i j = 1) (hsym : ∀ i j, g i j = g j i)
    {c : Nat → Int} (hInv : Spec.PruneInv g n k c) {i : Nat} (hin : i < n)
    (hact : -(n : Int) < c i) (hlt : c i < k) :
    Spec.PruneInv g n k
      (fun j => if j = i then -(n : Int) else if g i j ≠ 0 then c j - 1 else c j) := by
  obtain ⟨hA, hB, hC⟩ := hInv
  set c2 : Nat → Int :=
    fun j => if j = i then -(n : Int) else if g i j ≠ 0 then c j - 1 else c j with hc2def
  have hF1 : ∀ m, m < n → ((-(n : Int) < c2 m) ↔ ((-(n : Int) < c m) ∧ m ≠ i)) := by
    intro m hm
    by_cases hmi : m = i
    · subst hmi
      simp only [hc2def, if_pos rfl]
      constructor
      · intro h
        exact absurd h (lt_irrefl _)
      · rintro ⟨_, h⟩
        exact absurd rfl h
    · simp only [hc2def, if_neg hmi]
      constructor
      · intro h
        refine ⟨?_, hmi⟩
        split at h <;> omega
      · rintro ⟨hma, _⟩
        have hdeg := hA m hm hma
        have hld : (0 : Int) ≤
            (((Finset.range n).filter (fun j => g m j = 1 ∧ -(n : Int) < c j)).card : Int) :=
          Int.natCast_nonneg _
        rw [Spec.liveDeg] at hdeg
        split <;> omega
  have hF2 : ∀ j, j < n →
      (Finset.range n).filter (fun m => g j m = 1 ∧ -(n : Int) < c2 m) =
        ((Finset.range n).filter (fun m => g j m = 1 ∧ -(n : Int) < c m)).erase i := by
    intro j hj
    ext m
    simp only [Finset.mem_filter, Finset.mem_erase, Finset.mem_range]
    constructor
    · rintro ⟨hmn, hg, hact2⟩
      have hh := (hF1 m hmn).mp hact2
      exact ⟨hh.2, hmn, hg, hh.1⟩
    · rintro ⟨hmi, hmn, hg, hactm⟩
      exact ⟨hmn, hg, (hF1 m hmn).mpr ⟨hactm, hmi⟩⟩
  have himem : ∀ j, (i ∈ (Finset.range n).filter (fun m => g j m = 1 ∧ -(n : Int) < c m) ↔
      g j i = 1) := by
    intro j
    simp [Finset.mem_filter, Finset.mem_range, hin, hact]
  have hF3 : ∀ j, j < n → j ≠ i → (-(n : Int) < c j) → c2 j = Spec.liveDeg g n c2 j := by
    intro j hj hji hjact
    have hdeg := hA j hj hjact
    rw [Spec.liveDeg, hF2 j hj]
    rcases h01 j i with hji0 | hji1
    · have hnotmem : i ∉ (Finset.range n).filter (fun m => g j m = 1 ∧ -(n : Int) < c m) := by
        rw [himem j, hji0]
        omega
      rw [Finset.erase_eq_of_not_mem hnotmem]
      have hgij : g i j = 0 := by rw [hsym]; exact hji0
      simp only [hc2def, if_neg hji]
      rw [if_neg (by simp [hgij])]
      rw [Spec.liveDeg] at hdeg
      exact hdeg
    · have hmem : i ∈ (Finset.range n).filter (fun m => g j m = 1 ∧ -(n : Int) < c m) :=
        (himem j).mpr hji1
      have hpos : 0 <
          ((Finset.range n).filter (fun m => g j m = 1 ∧ -(n : Int) < c m)).card :=
        Finset.card_pos.mpr ⟨i, hmem⟩
      rw [Finset.card_erase_of_mem hmem, Nat.cast_sub (by omega)]
      have hgij : g i j ≠ 0 := by
        rw [hsym]
        omega
      simp only [hc2def, if_neg hji]
      rw [if_pos hgij]
      rw [Spec.liveDeg] at hdeg
      omega
  refine ⟨?_, ?_, ?_⟩
  · intro j hj hact2
    have hh := (hF1 j hj).mp hact2
    exact hF3 j hj hh.2 hh.1
  · intro T hT m hm
    have hiT : i ∉ T := by
      intro hiT
      have hk := hT.2 i hiT
      have hsub : (T.erase i).filter (fun j => g i j = 1) ⊆
          (Finset.range n).filter (fun m => g i m = 1 ∧ -(n : Int) < c m) := by
        intro x hx
        obtain ⟨hxe, hxg⟩ := Finset.mem_filter.mp hx
        have hxT := Finset.mem_of_mem_erase hxe
        refine Finset.mem_filter.mpr ⟨Finset.mem_range.mpr (hT.1 x hxT), hxg, hB T hT x hxT⟩
      have hcard := Finset.card_le_card hsub
      have hdeg := hA i hin hact
      rw [Spec.liveDeg] at hdeg
      omega
    have hmn : m < n := hT.1 m hm
    refine (hF1 m hmn).mpr ⟨hB T hT m hm, ?_⟩
    intro hmi
    exact hiT (hmi ▸ hm)
  · intro j hj hna
    by_cases hji : j = i
    · subst hji
      simp only [hc2def, if_pos rfl]
      omega
    · have hcj : ¬(-(n : Int) < c j) := by
        intro hcj
        exact hna ((hF1 j hj).mpr ⟨hcj, hji⟩)
      have := hC j hj hcj
      simp only [hc2def, if_neg hji]
      split <;> omega

theorem prunePass_inv {g : Nat → Nat → Nat} {n : Nat} {k : Int}
    (h01 : ∀ i j, g i j = 0 ∨ g i j = 1) (hsym : ∀ i j, g i j = g j i) :
    ∀ (l : List Nat) (c : Nat → Int) (flag : Bool), (∀ x ∈ l, x < n) →
      Spec.PruneInv g n k c →
      Spec.PruneInv g n k (Popularity.prunePass g n k l c flag).1 := by
  intro l
  induction l with
  | nil => intro c flag _ hInv; exact hInv
  | cons i rest ih =>
    intro c flag hl hInv
    by_cases hcond : c i < k ∧ -(n : Int) < c i
    · rw [Popularity.prunePass, if_pos hcond]
      exact ih _ _ (fun x hx => hl x (List.mem_cons_of_mem _ hx))
        (pruneInv_delete h01 hsym hInv (hl i (List.mem_cons_self _ _)) hcond.2 hcond.1)
    · rw [Popularity.prunePass, if_neg hcond]
      exact ih _ _ (fun x hx => hl x (List.mem_cons_of_mem _ hx)) hInv

theorem pruneLoopAux_fix {g : Nat → Nat → Nat} {n : Nat} {k : Int}
    (h01 : ∀ i j, g i j = 0 ∨ g i j = 1) (hsym : ∀ i j, g i j = g j i) :
    ∀ (fuel : Nat) (c : Nat → Int), Popularity.activeCount n c < fuel →
      Spec.PruneInv g n k c →
      Spec.PruneInv g n k (Popularity.pruneLoopAux g n k fuel c) ∧
      (Popularity.prunePass g n k (List.range n)
        (Popularity.pruneLoopAux g n k fuel c) false).2 = false := by
  intro fuel
  induction fuel with
  | zero =>
    intro c hfc _
    omega
  | succ f ih =>
    intro c hfc hInv
    simp only [Popularity.pruneLoopAux]
    by_cases hr : (Popularity.prunePass g n k (List.range n) c false).2 = true
    · rw [if_pos hr]
      have hlt := prunePass_active_lt g n k (List.range n) c
        (fun x hx => List.mem_range.mp hx) hr
      exact ih _ (by omega)
        (prunePass_inv h01 hsym (List.range n) c false
          (fun x hx => List.mem_range.mp hx) hInv)
    · rw [if_neg hr]
      rw [Bool.not_eq_true] at hr
      obtain ⟨h1, _⟩ := prunePass_noop g n k (List.range n) c hr
      rw [h1]
      exact ⟨hInv, hr⟩

theorem pruneLoopAux_stable {g : Nat → Nat → Nat} {n : Nat} {k : Int} :
    ∀ (f1 : Nat) (c : Nat → Int), Popularity.activeCount n c < f1 →
      ∀ (f2 : Nat), Popularity.activeCount n c < f2 →
      Popularity.pruneLoopAux g n k f1 c = Popularity.pruneLoopAux g n k f2 c := by
  intro f1
  induction f1 with
  | zero =>
    intro c hfc
    omega
  | succ f ih =>
    intro c hfc f2 hfc2
    cases f2 with
    | zero => omega
    | succ f2' =>
      simp only [Popularity.pruneLoopAux]
      by_cases hr : (Popularity.prunePass g n k (List.range n) c false).2 = true
      · rw [if_pos hr, if_pos hr]
        have hlt := prunePass_active_lt g n k (List.range n) c
          (fun x hx => List.mem_range.mp hx) hr
        exact ih _ (by omega) _ (by omega)
      · rw [if_neg hr, if_neg hr]

theorem kcore_abstract (g : Nat → Nat → Nat) (n : Nat) (k : Int)
    (h01 : ∀ i j, g i j = 0 ∨ g i j = 1) (hsym : ∀ i j, g i j = g j i)
    (hirr : ∀ i, g i i = 0) :
    Spec.Admissible g n k ((Finset.range n).filter
      (fun i => k ≤ Popularity.pruneLoop g n k (Popularity.rowSum g n) i)) ∧
    (∀ T, Spec.Admissible g n k T → T ⊆ (Finset.range n).filter
      (fun i => k ≤ Popularity.pruneLoop g n k (Popularity.rowSum g n) i)) ∧
    (Popularity.prunePass g n k (List.range n)
      (Popularity.pruneLoop g n k (Popularity.rowSum g n)) false).2 = false ∧
    (∀ extra, Popularity.pruneLoopAux g n k (n + 1 + extra) (Popularity.rowSum g n) =
      Popularity.pruneLoop g n k (Popularity.rowSum g n)) := by
  set c0 := Popularity.rowSum g n with hc0
  set cF := Popularity.pruneLoop g n k c0 with hcF
  have hac : Popularity.activeCount n c0 ≤ n := by
    rw [Popularity.activeCount]
    calc (List.range n).countP _ ≤ (List.range n).length := List.countP_le_length _
    _ = n := List.length_range n
  have hfix := pruneLoopAux_fix (k := k) h01 hsym (n + 1) c0 (by omega)
    (pruneInv_init (k := k) h01)
  obtain ⟨hinvF, hflagF⟩ := hfix
  have hcFaux : Popularity.pruneLoopAux g n k (n + 1) c0 = cF := rfl
  rw [hcFaux] at hinvF hflagF
  obtain ⟨_, hterm⟩ := prunePass_noop g n k (List.range n) cF hflagF
  have hSact : ∀ i, i < n → (k ≤ cF i ↔ -(n : Int) < cF i) := by
    intro i hi
    constructor
    · intro hk
      by_contra hna
      have := hinvF.2.2 i hi hna
      omega
    · intro hactv
      have hni := hterm i (List.mem_range.mpr hi)
      rw [not_and] at hni
      have := hni
      by_contra hlt
      exact (hni (by omega)) hactv
  refine ⟨⟨?_, ?_⟩, ?_, hflagF, ?_⟩
  · intro i hi
    exact Finset.mem_range.mp (Finset.mem_filter.mp hi).1
  · intro i hi
    obtain ⟨hir, hik⟩ := Finset.mem_filter.mp hi
    have hin : i < n := Finset.mem_range.mp hir
    have hactv : -(n : Int) < cF i := (hSact i hin).mp hik
    have hdeg := hinvF.1 i hin hactv
    have hset : ((((Finset.range n).filter (fun m => k ≤ cF m)).erase i).filter
        (fun j => g i j = 1)) =
        (Finset.range n).filter (fun m => g i m = 1 ∧ -(n : Int) < cF m) := by
      ext m
      simp only [Finset.mem_filter, Finset.mem_erase, Finset.mem_range]
      constructor
      · rintro ⟨⟨hmi, hmn, hkm⟩, hg⟩
        exact ⟨hmn, hg, (hSact m hmn).mp hkm⟩
      · rintro ⟨hmn, hg, hactm⟩
        refine ⟨⟨?_, hmn, (hSact m hmn).mpr hactm⟩, hg⟩
        intro hmi
        subst hmi
        rw [hirr m] at hg
        cases hg
    rw [hset]
    rw [Spec.liveDeg] at hdeg
    omega
  · intro T hT i hi
    have hin : i < n := hT.1 i hi
    have hactv : -(n : Int) < cF i := hinvF.2.1 T hT i hi
    exact Finset.mem_filter.mpr ⟨Finset.mem_range.mpr hin, (hSact i hin).mpr hactv⟩
  · intro extra
    exact pruneLoopAux_stable (n + 1 + extra) c0 (by omega) (n + 1) (by omega)

/-- C2 (amended): for every dataset in which no movie's cast repeats an
actor and every integer threshold k, the peeling loop of the
popularityfinder terminates — it reaches, within `n + 1` sweeps and
insensitively to extra fuel, a counts vector on which a further sweep
deletes nothing — and the surviving vertex set S (final count at least k)
is exactly the k-core: S is admissible (every member has at least k
neighbours among the other members) and contains every admissible set;
the program output after the header `Actor` lists the survivors' names
sorted lexicographically (`sLe`). -/
theorem C2_kcore_amended (records : List Proj.Rec) (k : Int) (st : Proj.BuildSt) (n : Nat)
    (g : Nat → Nat → Nat) (cF : Nat → Int) (S : Finset ℕ)
    (hst : st = Proj.build records) (hn : n = st.int_to_name.length)
    (hg : g = Proj.buildGraph st)
    (hcF : cF = Popularity.pruneLoop g n k (Popularity.rowSum g n))
    (hS : S = (Finset.range n).filter (fun i => k ≤ cF i))
    (hnodup : ∀ p ∈ st.movie_to_actor, p.2.Nodup) :
    Spec.Admissible g n k S ∧ (∀ T, Spec.Admissible g n k T → T ⊆ S) ∧
    (Popularity.prunePass g n k (List.range n) cF false).2 = false ∧
    (∀ extra, Popularity.pruneLoopAux g n k (n + 1 + extra) (Popularity.rowSum g n) = cF) ∧
    Popularity.popOutput records k = "Actor\n" ++
      String.join ((List.insertionSort sLe (Popularity.survivorsNames st k)).map
        (fun s => s ++ "\n")) ∧
    (List.insertionSort sLe (Popularity.survivorsNames st k)).Pairwise sLe ∧
    (List.insertionSort sLe (Popularity.survivorsNames st k)).Perm
      (S.toList.map (fun i => st.int_to_name.getD i "")) := by
  subst hst hn hg hcF hS
  obtain ⟨hAdm, hMax, hFlag, hStable⟩ :=
    kcore_abstract (Proj.buildGraph (Proj.build records))
      (Proj.build records).int_to_name.length k
      (buildGraph_01 (Proj.build records)) (buildGraph_symm (Proj.build records))
      (buildGraph_diag records hnodup)
  haveI instTot : IsTotal String sLe := ⟨sLe_total⟩
  haveI instTrans : IsTrans String sLe := ⟨fun _ _ _ => sLe_trans⟩
  refine ⟨hAdm, hMax, hFlag, hStable, rfl, List.sorted_insertionSort _ _, ?_⟩
  refine (List.perm_insertionSort _ _).trans ?_
  rw [Popularity.survivorsNames]
  refine List.Perm.map _ ?_
  have hval : ((Finset.range (Proj.build records).int_to_name.length).filter
      (fun i => k ≤ Popularity.pruneLoop (Proj.buildGraph (Proj.build records))
        (Proj.build records).int_to_name.length k
        (Popularity.rowSum (Proj.buildGraph (Proj.build records))
          (Proj.build records).int_to_name.length) i)).toList.Perm
      ((List.range (Proj.build records).int_to_name.length).filter
        (fun i => decide (k ≤ Popularity.pruneLoop (Proj.buildGraph (Proj.build records))
          (Proj.build records).int_to_name.length k
          (Popularity.rowSum (Proj.buildGraph (Proj.build records))
            (Proj.build records).int_to_name.length) i))) := by
    rw [← Multiset.coe_eq_coe, Finset.coe_toList]
    rfl
  exact hval.symm

/-- Witness for C2: the running example dataset with threshold k = 2; the
2-core is {A, B, C} and the program prints them sorted. -/
theorem C2_kcore_amended_witness :
    (∀ p ∈ (Proj.build exRecords).movie_to_actor, p.2.Nodup) ∧
    (Spec.Admissible (Proj.buildGraph (Proj.build exRecords)) (Proj.build exRecords).int_to_name.length 2
      ((Finset.range (Proj.build exRecords).int_to_name.length).filter
        (fun i => (2 : Int) ≤ Popularity.pruneLoop (Proj.buildGraph (Proj.build exRecords))
          (Proj.build exRecords).int_to_name.length 2
          (Popularity.rowSum (Proj.buildGraph (Proj.build exRecords))
            (Proj.build exRecords).int_to_name.length) i)) ∧
    (∀ T, Spec.Admissible (Proj.buildGraph (Proj.build exRecords)) (Proj.build exRecords).int_to_name.length 2 T →
      T ⊆ ((Finset.range (Proj.build exRecords).int_to_name.length).filter
        (fun i => (2 : Int) ≤ Popularity.pruneLoop (Proj.buildGraph (Proj.build exRecords))
          (Proj.build exRecords).int_to_name.length 2
          (Popularity.rowSum (Proj.buildGraph (Proj.build exRecords))
            (Proj.build exRecords).int_to_name.length) i))) ∧
    (Popularity.prunePass (Proj.buildGraph (Proj.build exRecords)) (Proj.build exRecords).int_to_name.length 2 (List.range (Proj.build exRecords).int_to_name.length)
      (Popularity.pruneLoop (Proj.buildGraph (Proj.build exRecords))
          (Proj.build exRecords).int_to_name.length 2
          (Popularity.rowSum (Proj.buildGraph (Proj.build exRecords))
            (Proj.build exRecords).int_to_name.length)) false).2 = false ∧
    (∀ extra, Popularity.pruneLoopAux (Proj.buildGraph (Proj.build exRecords)) (Proj.build exRecords).int_to_name.length 2
      ((Proj.build exRecords).int_to_name.length + 1 + extra) (Popularity.rowSum (Proj.buildGraph (Proj.build exRecords))
            (Proj.build exRecords).int_to_name.length) =
      (Popularity.pruneLoop (Proj.buildGraph (Proj.build exRecords))
          (Proj.build exRecords).int_to_name.length 2
          (Popularity.rowSum (Proj.buildGraph (Proj.build exRecords))
            (Proj.build exRecords).int_to_name.length))) ∧
    Popularity.popOutput exRecords 2 = "Actor\n" ++
      String.join ((List.insertionSort sLe (Popularity.survivorsNames (Proj.build exRecords) 2)).map (fun s => s ++ "\n")) ∧
    (List.insertionSort sLe (Popularity.survivorsNames (Proj.build exRecords) 2)).Pairwise sLe ∧
    (List.insertionSort sLe (Popularity.survivorsNames (Proj.build exRecords) 2)).Perm
      (((Finset.range (Proj.build exRecords).int_to_name.length).filter
        (fun i => (2 : Int) ≤ Popularity.pruneLoop (Proj.buildGraph (Proj.build exRecords))
          (Proj.build exRecords).int_to_name.length 2
          (Popularity.rowSum (Proj.buildGraph (Proj.build exRecords))
            (Proj.build exRecords).int_to_name.length) i)).toList.map (fun i => (Proj.build exRecords).int_to_name.getD i ""))) :=
  ⟨by decide, C2_kcore_amended exRecords 2 _ _ _ _ _ rfl rfl rfl rfl rfl (by decide)⟩
